import Mathlib

/-!
# Bsa: a read-only loader for TES3 "BSA" archives

A shallow embedding of `src/include/Bsa.h` and `src/src/Bsa.cpp`.

Platform fixed by the embedding (x86-64, LP64, "C" locale):
* `char` is a signed 8-bit integer, `int` a 32-bit two's complement integer,
  `unsigned int` a 32-bit unsigned integer, `size_t` a 64-bit unsigned integer,
  `std::streamsize` and `std::streamoff` 64-bit signed integers;
* scalars are stored little-endian;
* conversions between integer types are modular, and so is `int` addition;
* the free store grants every request for memory but the two whose size
  comes from the file, those of `std::vector::resize` in the constructor,
  which may be refused (see `FreeStore` and `BsaFile.constructWith`).

Bytes are `Fin 256`; machine integers are `Nat` or `Int` reduced explicitly.
A file is the list of its bytes; `std::ifstream` is a record of the file, the
get position, `eofbit`, `failbit` and `gcount` (see `IfStream`).
-/

namespace Bsa

/-! ## Machine integers -/

/-- One byte of a file or one `char` of a `std::string`. -/
abbrev Byte := Fin 256

/-- Number of values of a `size_t`. -/
def SIZE_RANGE : Nat := 2 ^ 64

/-- Conversion of an integer to `unsigned int`. -/
def toUInt (x : Int) : Nat := (x % (2 ^ 32 : Int)).toNat

/-- Conversion of an integer to `int` (two's complement, modular). -/
def toInt32 (x : Int) : Int :=
  if x % (2 ^ 32 : Int) < 2 ^ 31 then x % (2 ^ 32 : Int) else x % (2 ^ 32 : Int) - 2 ^ 32

/-- Conversion of an integer to `size_t`. -/
def toSizeT (x : Int) : Nat := (x % (2 ^ 64 : Int)).toNat

/-- Conversion of an integer to `std::streamsize` / `std::streamoff`. -/
def toInt64 (x : Int) : Int :=
  if x % (2 ^ 64 : Int) < 2 ^ 63 then x % (2 ^ 64 : Int) else x % (2 ^ 64 : Int) - 2 ^ 64

/-- Value of a `char` as the signed integer it holds. -/
def charValue (c : Byte) : Int := if c.val < 128 then (c.val : Int) else (c.val : Int) - 256

/-- The conversion `static_cast<unsigned int>(str[i])` of a `char`. -/
def byteValue (c : Byte) : Nat := toUInt (charValue c)

/-- The operator `<<` on `unsigned int`. -/
def shl32 (x k : Nat) : Nat := (x <<< k) % 2 ^ 32

/-- The operator `>>` on `unsigned int`. -/
def shr32 (x k : Nat) : Nat := x >>> k

/-- Little-endian `unsigned int` stored in the four bytes at `pos`; a byte
that is not there reads as zero. -/
def leU32 (bytes : List Byte) (pos : Nat) : Nat :=
  (bytes.getD pos 0).val + 2 ^ 8 * (bytes.getD (pos + 1) 0).val
    + 2 ^ 16 * (bytes.getD (pos + 2) 0).val + 2 ^ 24 * (bytes.getD (pos + 3) 0).val

/-- Little-endian `int` stored in the four bytes at `pos`. -/
def leI32 (bytes : List Byte) (pos : Nat) : Int := toInt32 (leU32 bytes pos)

/-! ## Data model (`Bsa.h`) -/

/-- The messages of the `BsaException`s thrown by the code, the failure of an
`assert`, and the `std::bad_alloc` of a `std::vector::resize`. -/
inductive BsaError where
  /-- "The BSA file could not be opened or was not in a state to be read". -/
  | cannotOpen
  /-- "The BSA didn't start with the correct number. ...". -/
  | badMagic
  /-- "Failed to read the file offsets". -/
  | offsetsRead
  /-- "Failed to seekg to the hash offsets. The file may be corrupt". -/
  | seekFailed
  /-- "Failed to read the file hashes". -/
  | hashesRead
  /-- "The end of the file was reached when trying to read the data". -/
  | endOfFile
  /-- "The data file couldn't be read". -/
  | readFailed
  /-- An `assert` of the code does not hold. -/
  | assertFailed
  /-- The exception `std::bad_alloc`: a `resize` did not obtain its memory. -/
  | badAlloc
  deriving DecidableEq, Repr

/-- The struct `Header`: three `int`s. -/
structure Header where
  version : Int
  hashTableOffset : Int
  numberOfFiles : Int
  deriving DecidableEq, Repr

/-- The struct `FileOffset`: two `int`s. -/
structure FileOffset where
  fileSize : Int
  fileOffset : Int
  deriving DecidableEq, Repr

/-- The struct `Hash`: two `unsigned int`s. -/
structure Hash where
  hash1 : Nat
  hash2 : Nat
  deriving DecidableEq, Repr

/-- The `operator==` on `Hash`. -/
def Hash.eq (a b : Hash) : Bool := a.hash1 == b.hash1 && a.hash2 == b.hash2

/-- The `operator<` on `Hash`. -/
def Hash.lt (lhs rhs : Hash) : Bool :=
  decide (lhs.hash1 < rhs.hash1) ||
    (!decide (rhs.hash1 < lhs.hash1) && decide (lhs.hash2 < rhs.hash2))

/-- The constant `FileId::NOT_FOUND`. -/
def NOT_FOUND : Nat := 0xFFFFFFFF

/-- The class `FileId`: the address of the owning `BsaFile` and an index. -/
structure FileId where
  mFileOwner : Nat
  mId : Nat
  deriving DecidableEq, Repr

/-- The method `FileId::exists`. -/
def FileId.exists (id : FileId) : Bool := id.mId != NOT_FOUND

/-! ## The string hasher (`BsaFile::getStringHash`) -/

/-- The function `tolower` in the "C" locale: only `A`..`Z` change. -/
def tolower (c : Byte) : Byte := if 65 ≤ c.val ∧ c.val ≤ 90 then c + 32 else c

/-- One replacement of `boost::replace_all(str, "/", "\\")`. -/
def replaceSlash (c : Byte) : Byte := if c = 47 then 92 else c

/-- The first two statements of `getStringHash`: lower-case every character,
then replace every `/` by `\`. -/
def normalise (str : List Byte) : List Byte := (str.map tolower).map replaceSlash

/-- Body of the first loop of `getStringHash`, on the state `(sum, off)`. -/
def hash1Step (str : List Byte) (st : Nat × Nat) (i : Nat) : Nat × Nat :=
  (st.1 ^^^ shl32 (byteValue (str.getD i 0)) (st.2 &&& 0x1F), (st.2 + 8) % 2 ^ 32)

/-- Body of the second loop of `getStringHash`, on the state `(sum, off)`.
For `n = 0` the left shift by 32 leaves no bit of `sum` (or all of them, on
hardware that masks the shift count): either way the `|` gives `sum`. -/
def hash2Step (str : List Byte) (st : Nat × Nat) (i : Nat) : Nat × Nat :=
  let temp := shl32 (byteValue (str.getD i 0)) (st.2 &&& 0x1F)
  let sum := st.1 ^^^ temp
  let n := temp &&& 0x1F
  (shl32 sum (32 - n) ||| shr32 sum n, (st.2 + 8) % 2 ^ 32)

/-- The loops of `getStringHash`, run on the normalised string. -/
def hashOfNormalised (str : List Byte) : Hash :=
  let len := str.length % 2 ^ 32
  let l := len >>> 1
  { hash1 := ((List.range l).foldl (hash1Step str) (0, 0)).1
    hash2 := ((List.range' l (len - l)).foldl (hash2Step str) (0, 0)).1 }

/-- The method `BsaFile::getStringHash`. -/
def getStringHash (str : List Byte) : Hash := hashOfNormalised (normalise str)

/-! ## Binary search (`std::lower_bound`, `BsaFile::binary_find`) -/

/-- The loop of `std::lower_bound` on the range `[first, first + len)` of `v`;
`fuel` bounds the number of iterations and `len` iterations always suffice
(see `lowerBoundLoop_fuel`). -/
def lowerBoundLoop (v : List Hash) (value : Hash) : Nat → Nat → Nat → Nat
  | 0, first, _ => first
  | fuel + 1, first, len =>
    if 0 < len then
      let half := len >>> 1
      let middle := first + half
      if (v.getD middle ⟨0, 0⟩).lt value then
        lowerBoundLoop v value fuel (middle + 1) (len - half - 1)
      else
        lowerBoundLoop v value fuel first half
    else first

/-- The function `std::lower_bound(v.begin(), v.end(), value)`, as an index. -/
def lower_bound (v : List Hash) (value : Hash) : Nat :=
  lowerBoundLoop v value v.length 0 v.length

/-- The method `BsaFile::binary_find(v.begin(), v.end(), value)`, as an
index; `v.length` stands for the iterator `end`. -/
def binary_find (v : List Hash) (value : Hash) : Nat :=
  let first := lower_bound v value
  if first ≠ v.length ∧ (v.getD first ⟨0, 0⟩).eq value then first else v.length

/-! ## The stream (`std::ifstream`, libstdc++) -/

/-- The state of the `std::ifstream` of an open file: the bytes of the file,
the get position, two state bits and the count of the last unformatted read.
No operation of the code sets `badbit`, so `fail()` is `failbit`. -/
structure IfStream where
  data : List Byte
  pos : Nat
  eofbit : Bool
  failbit : Bool
  gcount : Nat
  deriving DecidableEq, Repr

/-- The stream right after a successful `open`. -/
def IfStream.open (data : List Byte) : IfStream :=
  { data := data, pos := 0, eofbit := false, failbit := false, gcount := 0 }

/-- The method `eof()`. -/
def IfStream.eof (s : IfStream) : Bool := s.eofbit

/-- The method `fail()`. -/
def IfStream.fail (s : IfStream) : Bool := s.failbit

/-- The method `good()`. -/
def IfStream.good (s : IfStream) : Bool := !s.eofbit && !s.failbit

/-- The method `read(dest, n)` with `n` a `std::streamsize`: the new stream
and the characters stored at the front of `dest`. A stream that is not good
stores nothing and sets `failbit`; otherwise up to `n` characters are taken
and a short count sets `eofbit` and `failbit`. -/
def IfStream.read (s : IfStream) (n : Int) : IfStream × List Byte :=
  if s.good then
    let got := (s.data.drop s.pos).take n.toNat
    if (got.length : Int) = n then
      ({ s with pos := s.pos + got.length, gcount := got.length }, got)
    else
      ({ s with pos := s.pos + got.length, gcount := got.length,
                eofbit := true, failbit := true }, got)
  else
    ({ s with failbit := true, gcount := 0 }, [])

/-- The method `seekg(off, std::ios_base::beg)` with `off` a `std::streamoff`:
`eofbit` is cleared first; a stream that has failed is left where it is; a
negative position cannot be reached and sets `failbit`; any other position is
taken, also one past the end of the file. -/
def IfStream.seekg (s : IfStream) (off : Int) : IfStream :=
  let s1 := { s with eofbit := false }
  if s1.fail then s1
  else if off < 0 then { s1 with failbit := true }
  else { s1 with pos := off.toNat }

/-- The method `tellg()`: the get position, or `-1` (and `failbit`) on a
stream that is not good. -/
def IfStream.tellg (s : IfStream) : IfStream × Int :=
  if s.good then (s, (s.pos : Int)) else ({ s with failbit := true }, -1)

/-! ## The archive (`BsaFile`) -/

/-- The class `BsaFile`; `this` is the address of the object. -/
structure BsaFile where
  this : Nat
  mHeader : Header
  mOffsets : List FileOffset
  mHashes : List Hash
  mFile : IfStream
  mDataOffset : Nat
  deriving DecidableEq, Repr

/-- The twelve bytes of `mHeader` after `read((char*)&mHeader, 12)` stored
`got`: the member is not initialised, so a byte that was not read keeps what
the memory held before, `junk`. -/
def headerBytes (junk : Nat → Byte) (got : List Byte) : List Byte :=
  (List.range 12).map fun i => got.getD i (junk i)

/-- The struct `Header` laid over twelve bytes of memory. -/
def decodeHeader (mem : List Byte) : Header :=
  { version := leI32 mem 0, hashTableOffset := leI32 mem 4, numberOfFiles := leI32 mem 8 }

/-- The vector `mOffsets` after `resize(n)` and a read that stored `mem` at
its front (`resize` zero-fills, and a missing byte decodes as zero). -/
def decodeOffsets (n : Nat) (mem : List Byte) : List FileOffset :=
  (List.range n).map fun i =>
    { fileSize := leI32 mem (8 * i), fileOffset := leI32 mem (8 * i + 4) }

/-- The vector `mHashes` after `resize(n)` and a read that stored `mem` at
its front. -/
def decodeHashes (n : Nat) (mem : List Byte) : List Hash :=
  (List.range n).map fun i =>
    { hash1 := leU32 mem (8 * i), hash2 := leU32 mem (8 * i + 4) }

/-- The constructor `BsaFile::BsaFile(fileName)` in the runs in which
`mOffsets.resize` and `mHashes.resize` obtain their memory (for every run see
`BsaFile.constructWith`). `this` is the address of the object under
construction, `junk` the previous content of the memory of `mHeader`, and
`file` the bytes of the file named `fileName`, `none` when it cannot be
opened. A `throw` is an `Except.error`. -/
def BsaFile.construct (this : Nat) (junk : Nat → Byte) (file : Option (List Byte)) :
    Except BsaError BsaFile :=
  match file with
  | none => .error .cannotOpen
  | some data =>
    let r1 := (IfStream.open data).read 12
    let mHeader := decodeHeader (headerBytes junk r1.2)
    if mHeader.version ≠ 0x00000100 then .error .badMagic
    else if ¬ (mHeader.numberOfFiles ≥ 0) then .error .assertFailed
    else
      let count := (8 * toSizeT mHeader.numberOfFiles) % SIZE_RANGE
      let r2 := r1.1.read (toInt64 count)
      if r2.1.eof || r2.1.fail || decide ((r2.1.gcount : Int) ≠ toInt32 count) then
        .error .offsetsRead
      else
        let target := toInt32 (mHeader.hashTableOffset + 12)
        let r3 := (r2.1.seekg (toInt64 target)).tellg
        if r3.2 ≠ target then .error .seekFailed
        else
          let r4 := r3.1.read (toInt64 count)
          if r4.1.eof || r4.1.fail || decide ((r4.1.gcount : Int) ≠ toInt32 count) then
            .error .hashesRead
          else
            let r5 := r4.1.tellg
            .ok { this := this
                  mHeader := mHeader
                  mOffsets := decodeOffsets mHeader.numberOfFiles.toNat r2.2
                  mHashes := decodeHashes mHeader.numberOfFiles.toNat r4.2
                  mFile := r5.1
                  mDataOffset := toSizeT r5.2 }

/-- The free store as one run of the constructor meets it: `grants k bytes`
tells whether the request number `k` of the run (counted from 0), for `bytes`
bytes, obtains its memory. -/
structure FreeStore where
  grants : Nat → Nat → Bool

/-- Whether `resize(n)` on an empty `std::vector` of 8-byte records throws
`std::bad_alloc`, as request number `k` of the run: `n = 0` requests nothing,
otherwise `8 * n` bytes are requested in one piece. -/
def resizeThrows (mem : FreeStore) (k n : Nat) : Bool :=
  decide (0 < n) && !mem.grants k (8 * n)

/-- The constructor `BsaFile::BsaFile(fileName)` on the free store `mem`:
`mOffsets.resize` is the first request for memory whose size comes from the
file and `mHashes.resize` the second, and each throws `std::bad_alloc` when
it is refused. The arguments `this`, `junk` and `file` are those of
`BsaFile.construct`. -/
def BsaFile.constructWith (mem : FreeStore) (this : Nat) (junk : Nat → Byte)
    (file : Option (List Byte)) : Except BsaError BsaFile :=
  match file with
  | none => .error .cannotOpen
  | some data =>
    let r1 := (IfStream.open data).read 12
    let mHeader := decodeHeader (headerBytes junk r1.2)
    if mHeader.version ≠ 0x00000100 then .error .badMagic
    else if ¬ (mHeader.numberOfFiles ≥ 0) then .error .assertFailed
    else if resizeThrows mem 0 (toSizeT mHeader.numberOfFiles) then .error .badAlloc
    else
      let count := (8 * toSizeT mHeader.numberOfFiles) % SIZE_RANGE
      let r2 := r1.1.read (toInt64 count)
      if r2.1.eof || r2.1.fail || decide ((r2.1.gcount : Int) ≠ toInt32 count) then
        .error .offsetsRead
      else
        let target := toInt32 (mHeader.hashTableOffset + 12)
        let r3 := (r2.1.seekg (toInt64 target)).tellg
        if r3.2 ≠ target then .error .seekFailed
        else if resizeThrows mem 1 (toSizeT mHeader.numberOfFiles) then .error .badAlloc
        else
          let r4 := r3.1.read (toInt64 count)
          if r4.1.eof || r4.1.fail || decide ((r4.1.gcount : Int) ≠ toInt32 count) then
            .error .hashesRead
          else
            let r5 := r4.1.tellg
            .ok { this := this
                  mHeader := mHeader
                  mOffsets := decodeOffsets mHeader.numberOfFiles.toNat r2.2
                  mHashes := decodeHashes mHeader.numberOfFiles.toNat r4.2
                  mFile := r5.1
                  mDataOffset := toSizeT r5.2 }

/-- The method `BsaFile::getFileId`. -/
def BsaFile.getFileId (A : BsaFile) (name : List Byte) : FileId :=
  let h := getStringHash name
  let itr := binary_find A.mHashes h
  if itr = A.mHashes.length then { mFileOwner := A.this, mId := NOT_FOUND }
  else { mFileOwner := A.this, mId := itr }

/-- The three `assert`s that open `getFile`, `getFileSize` and
`getFileOffset` (`_getId() >= 0` holds of every `size_t`). -/
def BsaFile.assertsHold (A : BsaFile) (id : FileId) : Bool :=
  id.mFileOwner == A.this && decide (0 ≤ id.mId) && decide (id.mId < A.mOffsets.length)

/-- The method `BsaFile::getFileSize`: an `int` returned as a `size_t`. -/
def BsaFile.getFileSize (A : BsaFile) (id : FileId) : Except BsaError Nat :=
  if A.assertsHold id then
    .ok (toSizeT (A.mOffsets.getD id.mId ⟨0, 0⟩).fileSize)
  else .error .assertFailed

/-- The method `BsaFile::getFileOffset`: the sum of an `int` and a `size_t`,
computed and returned as a `size_t`. -/
def BsaFile.getFileOffset (A : BsaFile) (id : FileId) : Except BsaError Nat :=
  if A.assertsHold id then
    .ok ((toSizeT (A.mOffsets.getD id.mId ⟨0, 0⟩).fileOffset + A.mDataOffset) % SIZE_RANGE)
  else .error .assertFailed

/-- The method `BsaFile::getFile`: the archive after the call (its stream has
moved) and either the exception thrown or the characters stored in `dest`. -/
def BsaFile.getFile (A : BsaFile) (id : FileId) : BsaFile × Except BsaError (List Byte) :=
  if A.assertsHold id then
    match A.getFileOffset id, A.getFileSize id with
    | .ok offset, .ok size =>
      let r := (A.mFile.seekg (toInt64 offset)).read (toInt64 size)
      if r.1.eof then ({ A with mFile := r.1 }, .error .endOfFile)
      else if r.1.fail then ({ A with mFile := r.1 }, .error .readFailed)
      else ({ A with mFile := r.1 }, .ok r.2)
    | .error e, _ => (A, .error e)
    | _, .error e => (A, .error e)
  else (A, .error .assertFailed)

/-! ## Vocabulary of the statements -/

deriving instance DecidableEq for Except

/-- Two characters that are equal, or the same ASCII letter in different
case, or a slash and a backslash. -/
def sameChar (c d : Byte) : Prop :=
  c = d ∨ (65 ≤ c.val ∧ c.val ≤ 90 ∧ d = c + 32) ∨ (65 ≤ d.val ∧ d.val ≤ 90 ∧ c = d + 32)
    ∨ (c = 47 ∧ d = 92) ∨ (c = 92 ∧ d = 47)

instance sameCharDecidable (c d : Byte) : Decidable (sameChar c d) := by
  unfold sameChar; infer_instance

/-- A hash array sorted ascending by `(hash1, hash2)`: no entry is less than
an earlier one. -/
def SortedHashes (v : List Hash) : Prop := v.Pairwise fun a b => b.lt a = false

instance sortedHashesDecidable (v : List Hash) : Decidable (SortedHashes v) := by
  unfold SortedHashes; infer_instance

/-- The header the constructor works with: the first bytes of the file laid
over the memory of `mHeader`. -/
def headerOf (junk : Nat → Byte) (data : List Byte) : Header :=
  decodeHeader (headerBytes junk (data.take 12))

/-- The outcome of the constructor by cases on the header and on the length
of the file (proved equal to `BsaFile.construct` in `construct_some`). -/
def constructOutcome (this : Nat) (junk : Nat → Byte) (data : List Byte) :
    Except BsaError BsaFile :=
  let H := headerOf junk data
  let n := H.numberOfFiles
  let target := toInt32 (H.hashTableOffset + 12)
  if H.version ≠ 256 then .error .badMagic
  else if n < 0 then .error .assertFailed
  else if (data.length : Int) < 12 + 8 * n ∨ 268435456 ≤ n then .error .offsetsRead
  else if target < 0 ∧ target ≠ -1 then .error .seekFailed
  else if target = -1 ∨ (0 < n ∧ (data.length : Int) < target + 8 * n) then .error .hashesRead
  else .ok { this := this
             mHeader := H
             mOffsets := decodeOffsets n.toNat ((data.drop 12).take (8 * n.toNat))
             mHashes := decodeHashes n.toNat ((data.drop target.toNat).take (8 * n.toNat))
             mFile := { data := data, pos := target.toNat + 8 * n.toNat, eofbit := false,
                        failbit := false, gcount := 8 * n.toNat }
             mDataOffset := target.toNat + 8 * n.toNat }

/-- The archive after a sequence of `getFile` calls (the other methods
change nothing). -/
def afterCalls (A : BsaFile) : List FileId → BsaFile
  | [] => A
  | id :: ids => afterCalls (A.getFile id).1 ids

/-- The states of a loaded archive: what the constructor returned for some
file, and what any sequence of `getFile` calls makes of it. -/
def Loaded (A : BsaFile) : Prop :=
  ∃ (this : Nat) (junk : Nat → Byte) (data : List Byte) (A0 : BsaFile) (ids : List FileId),
    BsaFile.construct this junk (some data) = .ok A0 ∧ A = afterCalls A0 ids

/-- What every loaded archive satisfies (see `Loaded.invariant`): the header
and both tables are the decodings of the bytes of the file, and the data
section starts right after the hash table. -/
def LoadedInvariant (A : BsaFile) : Prop :=
  A.mHeader = decodeHeader A.mFile.data ∧
  A.mHeader.version = 256 ∧
  0 ≤ A.mHeader.numberOfFiles ∧ A.mHeader.numberOfFiles < 268435456 ∧
  0 ≤ A.mHeader.hashTableOffset + 12 ∧ A.mHeader.hashTableOffset + 12 < 2147483648 ∧
  12 + 8 * A.mHeader.numberOfFiles ≤ (A.mFile.data.length : Int) ∧
  (A.mHeader.numberOfFiles = 0 ∨
    A.mHeader.hashTableOffset + 12 + 8 * A.mHeader.numberOfFiles ≤ (A.mFile.data.length : Int)) ∧
  A.mOffsets = decodeOffsets A.mHeader.numberOfFiles.toNat
    ((A.mFile.data.drop 12).take (8 * A.mHeader.numberOfFiles.toNat)) ∧
  A.mHashes = decodeHashes A.mHeader.numberOfFiles.toNat
    ((A.mFile.data.drop (A.mHeader.hashTableOffset + 12).toNat).take
      (8 * A.mHeader.numberOfFiles.toNat)) ∧
  (A.mDataOffset : Int) = A.mHeader.hashTableOffset + 12 + 8 * A.mHeader.numberOfFiles

/-! ## Sample archives -/

/-- Content of uninitialised memory in the samples. -/
def sampleJunk : Nat → Byte := fun _ => 0

/-- An archive of three files, `x`, `a.txt` and `b\c.nif` in the order of
their hashes: header, offset table, four bytes of names, hash table at
`28 + 12`, data section at 64. -/
def sampleImage : List Byte :=
  [0, 1, 0, 0,  28, 0, 0, 0,  3, 0, 0, 0,
   2, 0, 0, 0,  0, 0, 0, 0,
   3, 0, 0, 0,  2, 0, 0, 0,
   1, 0, 0, 0,  5, 0, 0, 0,
   120, 0, 97, 0,
   0, 0, 0, 0,  0, 120, 0, 0,
   97, 46, 0, 0,  0, 56, 115, 0,
   98, 92, 99, 0,  0, 110, 209, 102,
   10, 11,  20, 21, 22,  30]

/-- The archive the constructor builds from `sampleImage` at address 1. -/
def sampleArchive : BsaFile :=
  { this := 1
    mHeader := { version := 256, hashTableOffset := 28, numberOfFiles := 3 }
    mOffsets := [⟨2, 0⟩, ⟨3, 2⟩, ⟨1, 5⟩]
    mHashes := [⟨0, 30720⟩, ⟨11873, 7550976⟩, ⟨6511714, 1725001216⟩]
    mFile := { data := sampleImage, pos := 64, eofbit := false, failbit := false, gcount := 24 }
    mDataOffset := 64 }

/-- The name `a.txt`. -/
def nameLower : List Byte := [97, 46, 116, 120, 116]

/-- The name `A.TXT`. -/
def nameUpper : List Byte := [65, 46, 84, 88, 84]

/-- The name `b/c.nif`. -/
def nameSlash : List Byte := [98, 47, 99, 46, 110, 105, 102]

/-- The name `zz`, which is not in `sampleImage`. -/
def nameAbsent : List Byte := [122, 122]

/-- The name `B\C.NIF`. -/
def nameBackslashUpper : List Byte := [66, 92, 67, 46, 78, 73, 70]

/-- An archive of one file, the empty name, whose offset entry holds the
relative offset `-100` (bytes `9C FF FF FF`). -/
def imageNegOffset : List Byte :=
  [0, 1, 0, 0,  8, 0, 0, 0,  1, 0, 0, 0,
   4, 0, 0, 0,  156, 255, 255, 255,
   0, 0, 0, 0,  0, 0, 0, 0,
   1, 2, 3, 4]

/-- The archive the constructor builds from `imageNegOffset` at address 1. -/
def archiveNegOffset : BsaFile :=
  { this := 1
    mHeader := { version := 256, hashTableOffset := 8, numberOfFiles := 1 }
    mOffsets := [⟨4, -100⟩]
    mHashes := [⟨0, 0⟩]
    mFile := { data := imageNegOffset, pos := 28, eofbit := false, failbit := false,
               gcount := 8 }
    mDataOffset := 28 }

/-- An archive of one file, the empty name, whose offset entry holds the
size `-1` (bytes `FF FF FF FF`). -/
def imageNegSize : List Byte :=
  [0, 1, 0, 0,  8, 0, 0, 0,  1, 0, 0, 0,
   255, 255, 255, 255,  0, 0, 0, 0,
   0, 0, 0, 0,  0, 0, 0, 0]

/-- The archive the constructor builds from `imageNegSize` at address 1. -/
def archiveNegSize : BsaFile :=
  { this := 1
    mHeader := { version := 256, hashTableOffset := 8, numberOfFiles := 1 }
    mOffsets := [⟨-1, 0⟩]
    mHashes := [⟨0, 0⟩]
    mFile := { data := imageNegSize, pos := 28, eofbit := false, failbit := false,
               gcount := 8 }
    mDataOffset := 28 }

/-- The bytes available in the file from position `p` on; none from a
position before the start of the file. -/
def bytesAvailableFrom (data : List Byte) (p : Int) : Nat :=
  if p < 0 then 0 else data.length - p.toNat

/-- The premises of "loading succeeds": a valid version field, `n` in
`[0, 2^31)`, `n` complete offset records after the header, a hash table
offset that is not negative, and `n` complete hash records from byte
`hashTableOffset + 12`. -/
def CompleteTables (data : List Byte) : Prop :=
  12 ≤ data.length ∧ leI32 data 0 = 256 ∧
  0 ≤ leI32 data 8 ∧ leI32 data 8 < 2147483648 ∧
  12 + 8 * leI32 data 8 ≤ (data.length : Int) ∧
  0 ≤ leI32 data 4 ∧
  leI32 data 4 + 12 + 8 * leI32 data 8 ≤ (data.length : Int)

/-- A file of `12 + size` bytes: a header with `numberOfFiles = 2^28`
(bytes `00 00 00 10`) and `hashTableOffset = 0`, then `size` zero bytes. -/
def zeroImage (size : Nat) : List Byte :=
  [0, 1, 0, 0,  0, 0, 0, 0,  0, 0, 0, 16] ++ List.replicate size 0

/-- The file `zeroImage` with `2^31` zero bytes after the header: room for
`2^28` offset records. -/
def hugeImage : List Byte := zeroImage 2147483648

/-- A file with a valid size but the version field `0x00000200`. -/
def imageBadMagic : List Byte :=
  [0, 2, 0, 0,  8, 0, 0, 0,  1, 0, 0, 0,
   4, 0, 0, 0,  0, 0, 0, 0,
   0, 0, 0, 0,  0, 0, 0, 0,
   1, 2, 3, 4]

/-- A file of one complete offset record whose header holds
`hashTableOffset = -100` (bytes `9C FF FF FF`). -/
def imageNegHashOffset : List Byte :=
  [0, 1, 0, 0,  156, 255, 255, 255,  1, 0, 0, 0,
   4, 0, 0, 0,  0, 0, 0, 0]

/-- A file that announces two files and holds one offset record. -/
def imageShortOffsets : List Byte :=
  [0, 1, 0, 0,  16, 0, 0, 0,  2, 0, 0, 0,
   4, 0, 0, 0,  0, 0, 0, 0]

/-- A file that announces one file and holds half a hash record. -/
def imageShortHashes : List Byte :=
  [0, 1, 0, 0,  8, 0, 0, 0,  1, 0, 0, 0,
   4, 0, 0, 0,  0, 0, 0, 0,
   0, 0, 0, 0]

/-- An archive of three files in which the name `x` occurs twice: the hash
table at `24 + 12` holds `(0, 0)`, `(0, 30720)`, `(0, 30720)`. -/
def imageDuplicates : List Byte :=
  [0, 1, 0, 0,  24, 0, 0, 0,  3, 0, 0, 0,
   1, 0, 0, 0,  0, 0, 0, 0,
   1, 0, 0, 0,  1, 0, 0, 0,
   1, 0, 0, 0,  2, 0, 0, 0,
   0, 0, 0, 0,  0, 0, 0, 0,
   0, 0, 0, 0,  0, 120, 0, 0,
   0, 0, 0, 0,  0, 120, 0, 0,
   5, 6, 7]

/-- The archive the constructor builds from `imageDuplicates` at address 1. -/
def archiveDuplicates : BsaFile :=
  { this := 1
    mHeader := { version := 256, hashTableOffset := 24, numberOfFiles := 3 }
    mOffsets := [⟨1, 0⟩, ⟨1, 1⟩, ⟨1, 2⟩]
    mHashes := [⟨0, 0⟩, ⟨0, 30720⟩, ⟨0, 30720⟩]
    mFile := { data := imageDuplicates, pos := 60, eofbit := false, failbit := false,
               gcount := 24 }
    mDataOffset := 60 }

/-- The name `x`. -/
def nameX : List Byte := [120]

/-- The loop of `std::lower_bound` again (`lowerBoundLoop`), with a count of
the evaluations of `operator<`: one per iteration. -/
def lowerBoundLoopCount (v : List Hash) (value : Hash) : Nat → Nat → Nat → Nat × Nat
  | 0, first, _ => (first, 0)
  | fuel + 1, first, len =>
    if 0 < len then
      let half := len >>> 1
      let middle := first + half
      if (v.getD middle ⟨0, 0⟩).lt value then
        let r := lowerBoundLoopCount v value fuel (middle + 1) (len - half - 1)
        (r.1, r.2 + 1)
      else
        let r := lowerBoundLoopCount v value fuel first half
        (r.1, r.2 + 1)
    else (first, 0)

/-- The method `binary_find` again, with the counts of the evaluations of
`operator<` and of `operator==`: the `&&` evaluates `*first == value` only
when `first != end`. -/
def binaryFindCount (v : List Hash) (value : Hash) : Nat × Nat × Nat :=
  let r := lowerBoundLoopCount v value v.length 0 v.length
  if r.1 ≠ v.length then
    (if (v.getD r.1 ⟨0, 0⟩).eq value then r.1 else v.length, r.2, 1)
  else (v.length, r.2, 0)

/-- The method `BsaFile::getFileId` again, with the counts of the evaluations
of `operator<` and of `operator==` on hashes (`getStringHash` compares no
hashes). -/
def BsaFile.getFileIdCount (A : BsaFile) (name : List Byte) : FileId × Nat × Nat :=
  let h := getStringHash name
  let r := binaryFindCount A.mHashes h
  (if r.1 = A.mHashes.length then { mFileOwner := A.this, mId := NOT_FOUND }
    else { mFileOwner := A.this, mId := r.1 }, r.2.1, r.2.2)

/-- The value of a byte, from 0 to 255. -/
def plainByteValue (c : Byte) : Nat := c.val

/-- Rotation to the right of a 32-bit word as the specification words it:
`(sum << (32-n)) | (sum >> n)` on 32-bit words, and no change for `n = 0`. -/
def rotateRight32 (sum n : Nat) : Nat :=
  if n = 0 then sum else ((sum <<< (32 - n)) % 2 ^ 32) ||| (sum >>> n)

/-- The first word as the specification words it: the 32-bit XOR over `i` in
`[0, l)` of `byteValue(s[i]) << ((8*i) & 0x1F)`; `bv` is the reading of
`byteValue`. -/
def specHash1 (bv : Byte → Nat) (s : List Byte) (l : Nat) : Nat :=
  (List.range l).foldl
    (fun sum i => sum ^^^ ((bv (s.getD i 0) <<< ((8 * i) &&& 0x1F)) % 2 ^ 32)) 0

/-- The second word as the specification words it: the fold of `i` from `l`
to `len - 1`, starting from `sum = 0`, with
`temp = byteValue(s[i]) << ((8*(i-l)) & 0x1F)`, `sum ^= temp`, then `sum`
rotated right by `n = temp & 0x1F`. -/
def specHash2 (bv : Byte → Nat) (s : List Byte) (l len : Nat) : Nat :=
  (List.range' l (len - l)).foldl
    (fun sum i =>
      rotateRight32 (sum ^^^ ((bv (s.getD i 0) <<< ((8 * (i - l)) &&& 0x1F)) % 2 ^ 32))
        (((bv (s.getD i 0) <<< ((8 * (i - l)) &&& 0x1F)) % 2 ^ 32) &&& 0x1F)) 0

/-- The fingerprint as the specification words it, of the normalised string
`s`, with `len` standing for its length and `l = len >> 1`. -/
def specHash (bv : Byte → Nat) (s : List Byte) (len : Nat) : Hash :=
  { hash1 := specHash1 bv s (len >>> 1), hash2 := specHash2 bv s (len >>> 1) len }

/-- The state `(sum, off)` of the second loop of `getStringHash` on entry to
iteration `i`, the loop having started at `l`. -/
def hash2State (s : List Byte) (l i : Nat) : Nat × Nat :=
  (List.range' l (i - l)).foldl (hash2Step s) (0, 0)

/-- The variable `temp` of the second loop in iteration `i`. -/
def hash2Temp (s : List Byte) (l i : Nat) : Nat :=
  shl32 (byteValue (s.getD i 0)) ((hash2State s l i).2 &&& 0x1F)

/-- The rotation amount `n = temp & 0x1F` of the second loop in iteration
`i`. -/
def hash2Rotation (s : List Byte) (l i : Nat) : Nat := hash2Temp s l i &&& 0x1F

/-- A name of `1 + size` characters: the letter `a`, then `size` characters
of value zero. -/
def longName (size : Nat) : List Byte := 97 :: List.replicate size 0

/-- The name `longName` of `2^32 + 1` characters. -/
def hugeName : List Byte := longName 4294967296

/-- The name of the single character `0xE9`. -/
def nameLatin1 : List Byte := [233]

/-- An archive of one file, the empty name, of size 0 at the relative offset
100, past the end of the 28-byte file. -/
def imageEmptyPastEnd : List Byte :=
  [0, 1, 0, 0,  8, 0, 0, 0,  1, 0, 0, 0,
   0, 0, 0, 0,  100, 0, 0, 0,
   0, 0, 0, 0,  0, 0, 0, 0]

/-- The archive the constructor builds from `imageEmptyPastEnd` at address
1. -/
def archiveEmptyPastEnd : BsaFile :=
  { this := 1
    mHeader := { version := 256, hashTableOffset := 8, numberOfFiles := 1 }
    mOffsets := [⟨0, 100⟩]
    mHashes := [⟨0, 0⟩]
    mFile := { data := imageEmptyPastEnd, pos := 28, eofbit := false, failbit := false,
               gcount := 8 }
    mDataOffset := 28 }

/-- An archive of two files whose data section was cut short: the empty name
has 2 bytes at relative offset 0, the name `x` announces 10 bytes at relative
offset 2, and the data section at 44 holds 4 bytes. -/
def imageTruncatedData : List Byte :=
  [0, 1, 0, 0,  16, 0, 0, 0,  2, 0, 0, 0,
   2, 0, 0, 0,  0, 0, 0, 0,
   10, 0, 0, 0,  2, 0, 0, 0,
   0, 0, 0, 0,  0, 0, 0, 0,
   0, 0, 0, 0,  0, 120, 0, 0,
   7, 8, 9, 9]

/-- The archive the constructor builds from `imageTruncatedData` at address
1. -/
def archiveTruncatedData : BsaFile :=
  { this := 1
    mHeader := { version := 256, hashTableOffset := 16, numberOfFiles := 2 }
    mOffsets := [⟨2, 0⟩, ⟨10, 2⟩]
    mHashes := [⟨0, 0⟩, ⟨0, 30720⟩]
    mFile := { data := imageTruncatedData, pos := 44, eofbit := false, failbit := false,
               gcount := 16 }
    mDataOffset := 44 }

/-- The archive `archiveTruncatedData` after the extraction of `x` has thrown
the end-of-file error. -/
def archiveAfterFailure : BsaFile :=
  (archiveTruncatedData.getFile (archiveTruncatedData.getFileId nameX)).1

/-- A file of 20 bytes whose header announces `2^31 - 1` files (bytes
`FF FF FF 7F`) and which holds one offset record. -/
def imageHugeCount : List Byte :=
  [0, 1, 0, 0,  0, 0, 0, 0,  255, 255, 255, 127,
   4, 0, 0, 0,  0, 0, 0, 0]

/-- A free store that grants every request. -/
def storePlentiful : FreeStore := { grants := fun _ _ => true }

/-- A free store that grants the requests of at most `2^30` bytes. -/
def storeOneGiB : FreeStore := { grants := fun _ bytes => decide (bytes ≤ 1073741824) }

/-- A free store that grants the first request of the run and refuses the
later ones. -/
def storeFirstOnly : FreeStore := { grants := fun k _ => decide (k = 0) }

/-! ## Machine integers: lemmas -/

theorem toInt32_of_range {x : Int} (h1 : -2147483648 ≤ x) (h2 : x < 2147483648) : toInt32 x = x := by
  unfold toInt32; norm_num; split <;> omega

theorem toInt32_range (x : Int) : -2147483648 ≤ toInt32 x ∧ toInt32 x < 2147483648 := by
  unfold toInt32; norm_num; split <;> omega

theorem toInt64_of_range {x : Int} (h1 : -9223372036854775808 ≤ x) (h2 : x < 9223372036854775808) :
    toInt64 x = x := by
  unfold toInt64; norm_num; split <;> omega

theorem toSizeT_of_nonneg {x : Int} (h1 : 0 ≤ x) (h2 : x < 18446744073709551616) :
    (toSizeT x : Int) = x := by
  unfold toSizeT; norm_num; omega

theorem leU32_lt (bytes : List Byte) (pos : Nat) : leU32 bytes pos < 4294967296 := by
  unfold leU32
  have h0 := (bytes.getD pos 0).isLt
  have h1 := (bytes.getD (pos + 1) 0).isLt
  have h2 := (bytes.getD (pos + 2) 0).isLt
  have h3 := (bytes.getD (pos + 3) 0).isLt
  omega

theorem leI32_range (bytes : List Byte) (pos : Nat) :
    -2147483648 ≤ leI32 bytes pos ∧ leI32 bytes pos < 2147483648 := toInt32_range _

/-! ## Normalisation of names -/

set_option maxRecDepth 100000 in
theorem normChar_upper : ∀ c : Byte, 65 ≤ c.val → c.val ≤ 90 →
    replaceSlash (tolower (c + 32)) = replaceSlash (tolower c) := by
  decide

theorem normChar_of_sameChar (c d : Byte) (h : sameChar c d) :
    replaceSlash (tolower c) = replaceSlash (tolower d) := by
  rcases h with rfl | ⟨h1, h2, rfl⟩ | ⟨h1, h2, rfl⟩ | ⟨rfl, rfl⟩ | ⟨rfl, rfl⟩
  · rfl
  · exact (normChar_upper c h1 h2).symm
  · exact normChar_upper d h1 h2
  · decide
  · decide

set_option maxRecDepth 100000 in
theorem sameChar_normChar : ∀ c : Byte, sameChar c (replaceSlash (tolower c)) := by
  decide

theorem normalise_eq_of_sameChar {n m : List Byte} (h : List.Forall₂ sameChar n m) :
    normalise n = normalise m := by
  induction h with
  | nil => rfl
  | cons hcd _ ih =>
    simp only [normalise, List.map_cons, List.map_map] at ih ⊢
    rw [ih]
    simp [normChar_of_sameChar _ _ hcd]

theorem forall₂_sameChar_normalise (n : List Byte) : List.Forall₂ sameChar n (normalise n) := by
  induction n with
  | nil => exact List.Forall₂.nil
  | cons c t ih => exact List.Forall₂.cons (sameChar_normChar c) ih

/-! ## Binary search: lemmas -/

theorem shiftRight_one (n : Nat) : n >>> 1 = n / 2 := by
  rw [Nat.shiftRight_eq_div_pow, Nat.pow_one]

theorem Hash.lt_iff (a b : Hash) :
    a.lt b = true ↔ a.hash1 < b.hash1 ∨ (a.hash1 = b.hash1 ∧ a.hash2 < b.hash2) := by
  simp only [Hash.lt, Bool.or_eq_true, Bool.and_eq_true, Bool.not_eq_true', decide_eq_true_eq,
    decide_eq_false_iff_not]
  omega

theorem Hash.eq_iff (a b : Hash) : a.eq b = true ↔ a = b := by
  cases a; cases b
  simp [Hash.eq]

theorem lowerBoundLoop_fuel (v : List Hash) (value : Hash) :
    ∀ (f g first len : Nat), len ≤ f → len ≤ g →
      lowerBoundLoop v value f first len = lowerBoundLoop v value g first len := by
  intro f
  induction f with
  | zero =>
    intro g first len hf _
    have h0 : len = 0 := by omega
    subst h0
    cases g <;> simp [lowerBoundLoop]
  | succ f ih =>
    intro g first len hf hg
    cases g with
    | zero =>
      have h0 : len = 0 := by omega
      subst h0
      simp [lowerBoundLoop]
    | succ g =>
      simp only [lowerBoundLoop, shiftRight_one]
      split
      · split
        · exact ih g _ _ (by omega) (by omega)
        · exact ih g _ _ (by omega) (by omega)
      · rfl

theorem lowerBoundLoop_bounds (v : List Hash) (value : Hash) :
    ∀ (f first len : Nat),
      first ≤ lowerBoundLoop v value f first len ∧
        lowerBoundLoop v value f first len ≤ first + len := by
  intro f
  induction f with
  | zero => intro first len; simp [lowerBoundLoop]
  | succ f ih =>
    intro first len
    simp only [lowerBoundLoop, shiftRight_one]
    split
    · split
      · have := ih (first + len / 2 + 1) (len - len / 2 - 1)
        omega
      · have := ih first (len / 2)
        omega
    · omega

theorem lower_bound_le (v : List Hash) (value : Hash) : lower_bound v value ≤ v.length := by
  have := lowerBoundLoop_bounds v value v.length 0 v.length
  unfold lower_bound
  omega

theorem Hash.lt_of_le_of_lt {a b c : Hash} (hab : b.lt a = false) (hbc : b.lt c = true) :
    a.lt c = true := by
  have h1 : ¬ (b.lt a = true) := by simp [hab]
  rw [Hash.lt_iff] at h1 hbc ⊢
  omega

theorem sortedHashes_getD (v : List Hash) (hs : SortedHashes v) :
    ∀ i j, i < j → j < v.length → (v.getD j ⟨0, 0⟩).lt (v.getD i ⟨0, 0⟩) = false := by
  intro i j hij hj
  have hi : i < v.length := by omega
  have h := (List.pairwise_iff_getElem.mp hs) i j hi hj hij
  simpa [List.getD_eq_getElem?_getD, List.getElem?_eq_getElem hi, List.getElem?_eq_getElem hj]
    using h

/-- On a sorted array the loop keeps: everything before `first` is less than
`value`, nothing from `first + len` on is. -/
theorem lowerBoundLoop_sorted (v : List Hash) (value : Hash) (hs : SortedHashes v) :
    ∀ (f first len : Nat), len ≤ f → first + len ≤ v.length →
      (∀ i, i < first → (v.getD i ⟨0, 0⟩).lt value = true) →
      (∀ i, first + len ≤ i → i < v.length → (v.getD i ⟨0, 0⟩).lt value = false) →
      (∀ i, i < lowerBoundLoop v value f first len → (v.getD i ⟨0, 0⟩).lt value = true) ∧
      (∀ i, lowerBoundLoop v value f first len ≤ i → i < v.length →
        (v.getD i ⟨0, 0⟩).lt value = false) := by
  have hs := sortedHashes_getD v hs
  intro f
  induction f with
  | zero =>
    intro first len hf _ hlo hhi
    have h0 : len = 0 := by omega
    subst h0
    exact ⟨by simpa [lowerBoundLoop] using hlo, by simpa [lowerBoundLoop] using hhi⟩
  | succ f ih =>
    intro first len hf hlen hlo hhi
    simp only [lowerBoundLoop, shiftRight_one]
    split
    · rename_i hpos
      split
      · rename_i hmid
        refine ih _ _ (by omega) (by omega) ?_ (fun i hi => hhi i (by omega))
        intro i hi
        by_cases h1 : i < first
        · exact hlo i h1
        · by_cases h2 : i = first + len / 2
          · rw [h2]; exact hmid
          · exact Hash.lt_of_le_of_lt (hs i (first + len / 2) (by omega) (by omega)) hmid
      · rename_i hmid
        refine ih _ _ (by omega) (by omega) hlo ?_
        intro i hi hil
        by_cases h2 : i = first + len / 2
        · rw [h2]; simpa using hmid
        · by_contra hc
          have hc' : (v.getD i ⟨0, 0⟩).lt value = true := by simpa using hc
          exact hmid (Hash.lt_of_le_of_lt (hs (first + len / 2) i (by omega) hil) hc')
    · have h0 : len = 0 := by omega
      subst h0
      exact ⟨hlo, by simpa using hhi⟩

/-- On a sorted array `std::lower_bound` returns the partition point. -/
theorem lower_bound_sorted (v : List Hash) (value : Hash) (hs : SortedHashes v) :
    (∀ i, i < lower_bound v value → (v.getD i ⟨0, 0⟩).lt value = true) ∧
    (∀ i, lower_bound v value ≤ i → i < v.length → (v.getD i ⟨0, 0⟩).lt value = false) := by
  unfold lower_bound
  exact lowerBoundLoop_sorted v value hs v.length 0 v.length (Nat.le_refl _) (by omega)
    (fun i hi => absurd hi (Nat.not_lt_zero i)) (fun i hi hil => by omega)

theorem Hash.lt_irrefl (a : Hash) : a.lt a = false := by
  have h : ¬ (a.lt a = true) := by rw [Hash.lt_iff]; omega
  simpa using h

theorem Hash.eq_of_not_lt {a b : Hash} (h1 : a.lt b = false) (h2 : b.lt a = false) : a = b := by
  have h1' : ¬ (a.lt b = true) := by simp [h1]
  have h2' : ¬ (b.lt a = true) := by simp [h2]
  rw [Hash.lt_iff] at h1' h2'
  cases a; cases b
  simp only [Hash.mk.injEq] at *
  omega

/-- On a sorted array `binary_find` finds the first entry equal to `value`,
when there is one. -/
theorem binary_find_sorted (v : List Hash) (value : Hash) (hs : SortedHashes v)
    (i : Nat) (hi : i < v.length) (hv : v.getD i ⟨0, 0⟩ = value) :
    binary_find v value < v.length ∧ binary_find v value ≤ i ∧
      v.getD (binary_find v value) ⟨0, 0⟩ = value := by
  obtain ⟨hlo, hhi⟩ := lower_bound_sorted v value hs
  have hs := sortedHashes_getD v hs
  have hle : lower_bound v value ≤ i := by
    by_contra hc
    have := hlo i (by omega)
    rw [hv, Hash.lt_irrefl] at this
    exact Bool.false_ne_true this
  have hlt : lower_bound v value < v.length := by omega
  have heq : v.getD (lower_bound v value) ⟨0, 0⟩ = value := by
    apply Hash.eq_of_not_lt (hhi _ (Nat.le_refl _) hlt)
    by_cases h : lower_bound v value = i
    · rw [h, hv]; exact Hash.lt_irrefl _
    · have := hs (lower_bound v value) i (by omega) hi
      rw [hv] at this
      exact this
  have hbf : binary_find v value = lower_bound v value := by
    unfold binary_find
    simp only []
    rw [if_pos ⟨by omega, (Hash.eq_iff _ _).mpr heq⟩]
  rw [hbf]
  exact ⟨hlt, hle, heq⟩

/-- Whatever the order of the array, an index returned by `binary_find`
holds `value`. -/
theorem binary_find_sound (v : List Hash) (value : Hash) (h : binary_find v value ≠ v.length) :
    binary_find v value < v.length ∧ v.getD (binary_find v value) ⟨0, 0⟩ = value := by
  have hle := lower_bound_le v value
  unfold binary_find at h ⊢
  simp only [] at h ⊢
  split
  · rename_i hc
    exact ⟨by omega, (Hash.eq_iff _ _).mp hc.2⟩
  · rename_i hc
    rw [if_neg hc] at h
    exact absurd rfl h

/-! ## The stream and the constructor: lemmas -/

theorem read_fits (d : List Byte) (p g : Nat) (n : Int) (k : Nat) (hk : n = (k : Int))
    (hfit : k = 0 ∨ p + k ≤ d.length) :
    IfStream.read { data := d, pos := p, eofbit := false, failbit := false, gcount := g } n =
      ({ data := d, pos := p + k, eofbit := false, failbit := false, gcount := k },
        (d.drop p).take k) := by
  subst hk
  have hl : ((d.drop p).take k).length = k := by
    rw [List.length_take, List.length_drop]; omega
  simp [IfStream.read, IfStream.good, hl]

theorem read_short (d : List Byte) (p g : Nat) (n : Int)
    (h : n < 0 ∨ (0 < n ∧ (d.length : Int) < p + n)) :
    (IfStream.read { data := d, pos := p, eofbit := false, failbit := false, gcount := g } n).1.eofbit
      = true := by
  have hl : (((d.drop p).take n.toNat).length : Int) ≠ n := by
    rw [List.length_take, List.length_drop]; omega
  simp only [IfStream.read, IfStream.good, Bool.not_false, Bool.and_self, if_true, if_neg hl]

theorem read_failed (s : IfStream) (n : Int) (h : s.failbit = true) :
    (s.read n).1.failbit = true := by
  simp [IfStream.read, IfStream.good, h]

theorem open_read (data : List Byte) :
    (IfStream.open data).read 12 =
      (if 12 ≤ data.length then
          { data := data, pos := 12, eofbit := false, failbit := false, gcount := 12 }
        else
          { data := data, pos := data.length, eofbit := true, failbit := true,
            gcount := data.length },
        data.take 12) := by
  by_cases h : 12 ≤ data.length
  · rw [if_pos h, IfStream.open, read_fits data 0 0 12 12 rfl (Or.inr (by omega))]
    simp
  · have hl : ((data.drop 0).take (12 : Int).toNat).length = data.length := by
      rw [List.length_take, List.length_drop]
      have : (12 : Int).toNat = 12 := rfl
      omega
    have hne : ((((data.drop 0).take (12 : Int).toNat).length : Nat) : Int) ≠ 12 := by
      rw [hl]; omega
    rw [if_neg h]
    simp only [IfStream.open, IfStream.read, IfStream.good, Bool.not_false, Bool.and_self, if_true,
      if_neg hne, hl]
    simp
    omega

theorem seekg_tellg_nonneg (d : List Byte) (p g : Nat) (t : Int) (ht : 0 ≤ t) :
    (IfStream.seekg { data := d, pos := p, eofbit := false, failbit := false, gcount := g } t).tellg
      = ({ data := d, pos := t.toNat, eofbit := false, failbit := false, gcount := g }, t) := by
  have h : ¬ t < 0 := by omega
  simp [IfStream.seekg, IfStream.tellg, IfStream.fail, IfStream.good, h, Int.toNat_of_nonneg ht]

theorem seekg_tellg_neg (d : List Byte) (p g : Nat) (t : Int) (ht : t < 0) :
    (IfStream.seekg { data := d, pos := p, eofbit := false, failbit := false, gcount := g } t).tellg
      = ({ data := d, pos := p, eofbit := false, failbit := true, gcount := g }, -1) := by
  simp [IfStream.seekg, IfStream.tellg, IfStream.fail, IfStream.good, ht]

theorem toSizeT_natCast (k : Nat) (h : k < 18446744073709551616) : toSizeT (k : Int) = k := by
  have := toSizeT_of_nonneg (x := (k : Int)) (by omega) (by omega)
  omega

theorem headerOf_numberOfFiles (junk : Nat → Byte) (data : List Byte) :
    (headerOf junk data).numberOfFiles = leI32 (headerBytes junk (data.take 12)) 8 := by
  simp only [headerOf, decodeHeader]

theorem headerOf_range (junk : Nat → Byte) (data : List Byte) :
    -2147483648 ≤ (headerOf junk data).numberOfFiles ∧
      (headerOf junk data).numberOfFiles < 2147483648 := by
  rw [headerOf_numberOfFiles]
  exact leI32_range _ _

theorem toInt32_count (k : Nat) (hk : k < 2147483648) :
    ((8 * k : Nat) : Int) ≠ toInt32 ((8 * k : Nat) : Int) ↔ 268435456 ≤ k := by
  unfold toInt32
  norm_num
  split <;> omega

theorem tellg_good (d : List Byte) (p g : Nat) :
    IfStream.tellg { data := d, pos := p, eofbit := false, failbit := false, gcount := g } =
      ({ data := d, pos := p, eofbit := false, failbit := false, gcount := g }, (p : Int)) := by
  simp [IfStream.tellg, IfStream.good]

theorem check_iff (s : IfStream) (c : Int) :
    (s.eof || s.fail || decide ((s.gcount : Int) ≠ c)) = true ↔
      (s.eofbit = true ∨ s.failbit = true ∨ (s.gcount : Int) ≠ c) := by
  simp only [IfStream.eof, IfStream.fail, Bool.or_eq_true, decide_eq_true_eq, or_assoc]

theorem construct_some (this : Nat) (junk : Nat → Byte) (data : List Byte) :
    BsaFile.construct this junk (some data) = constructOutcome this junk data := by
  have hn := headerOf_range junk data
  have ht := toInt32_range ((headerOf junk data).hashTableOffset + 12)
  unfold constructOutcome BsaFile.construct
  simp only [open_read]
  rw [show decodeHeader (headerBytes junk (List.take 12 data)) = headerOf junk data by
    simp only [headerOf]]
  generalize headerOf junk data = H at hn ht ⊢
  by_cases hv : H.version ≠ 256
  · rw [if_pos hv, if_pos hv]
  rw [if_neg hv, if_neg hv]
  by_cases ha : H.numberOfFiles < 0
  · rw [if_pos (by omega), if_pos ha]
  rw [if_neg (by omega), if_neg ha]
  obtain ⟨k, hk⟩ : ∃ k : Nat, H.numberOfFiles = (k : Int) := ⟨H.numberOfFiles.toNat, by omega⟩
  have hcount : 8 * toSizeT H.numberOfFiles % SIZE_RANGE = 8 * k := by
    rw [hk, toSizeT_natCast k (by omega)]
    unfold SIZE_RANGE
    omega
  have hc64 : toInt64 ((8 * k : Nat) : Int) = ((8 * k : Nat) : Int) :=
    toInt64_of_range (by omega) (by omega)
  have hc32 := toInt32_count k (by omega)
  have ht64 : toInt64 (toInt32 (H.hashTableOffset + 12)) = toInt32 (H.hashTableOffset + 12) :=
    toInt64_of_range (by omega) (by omega)
  have hkn : H.numberOfFiles.toNat = k := by omega
  rw [hcount, hc64, ht64, hkn]
  generalize toInt32 (H.hashTableOffset + 12) = t at ht ⊢
  by_cases h12 : 12 ≤ data.length
  swap
  · -- the header read was short: the stream has failed
    simp only [if_neg h12]
    have hf := read_failed ⟨data, data.length, true, true, data.length⟩ ((8 * k : Nat) : Int) rfl
    have hr : (data.length : Int) < 12 + 8 * H.numberOfFiles ∨ 268435456 ≤ H.numberOfFiles :=
      Or.inl (by omega)
    rw [if_pos ((check_iff _ _).mpr (Or.inr (Or.inl hf))), if_pos hr]
  simp only [if_pos h12]
  by_cases hshort : (data.length : Int) < 12 + 8 * H.numberOfFiles
  · have he := read_short data 12 12 ((8 * k : Nat) : Int) (Or.inr (by omega))
    have hr : (data.length : Int) < 12 + 8 * H.numberOfFiles ∨ 268435456 ≤ H.numberOfFiles :=
      Or.inl hshort
    rw [if_pos ((check_iff _ _).mpr (Or.inl he)), if_pos hr]
  rw [read_fits data 12 12 _ (8 * k) rfl (Or.inr (by omega))]
  dsimp only
  by_cases hbig : 268435456 ≤ k
  · have hr : (data.length : Int) < 12 + 8 * H.numberOfFiles ∨ 268435456 ≤ H.numberOfFiles :=
      Or.inr (by omega)
    rw [if_pos ((check_iff _ _).mpr (Or.inr (Or.inr (hc32.mpr hbig)))), if_pos hr]
  have hc32' : ((8 * k : Nat) : Int) = toInt32 ((8 * k : Nat) : Int) := by
    by_contra hne
    exact hbig (hc32.mp hne)
  have hchk : ∀ p : Nat, ¬ ((IfStream.mk data p false false (8 * k)).eof ||
      (IfStream.mk data p false false (8 * k)).fail ||
      decide ((((IfStream.mk data p false false (8 * k)).gcount : Nat) : Int)
        ≠ toInt32 ((8 * k : Nat) : Int))) = true := by
    intro p h
    rcases (check_iff _ _).mp h with h | h | h
    · exact Bool.false_ne_true h
    · exact Bool.false_ne_true h
    · exact h hc32'
  have hr1 : ¬ ((data.length : Int) < 12 + 8 * H.numberOfFiles ∨ 268435456 ≤ H.numberOfFiles) := by
    omega
  rw [if_neg (hchk _), if_neg hr1]
  by_cases ht0 : t < 0
  · rw [seekg_tellg_neg data _ _ t ht0]
    dsimp only
    by_cases ht1 : t = -1
    · subst ht1
      have hf := read_failed ⟨data, 12 + 8 * k, false, true, 8 * k⟩ ((8 * k : Nat) : Int) rfl
      have hl : ¬ ((-1 : Int) ≠ -1) := by simp
      have hr2 : ¬ ((-1 : Int) < 0 ∧ (-1 : Int) ≠ -1) := by simp
      have hr3 : (-1 : Int) = -1 ∨
          (0 < H.numberOfFiles ∧ (data.length : Int) < -1 + 8 * H.numberOfFiles) := Or.inl rfl
      rw [if_neg hl, if_neg hr2, if_pos ((check_iff _ _).mpr (Or.inr (Or.inl hf))), if_pos hr3]
    · have hl : (-1 : Int) ≠ t := Ne.symm ht1
      have hr2 : t < 0 ∧ t ≠ -1 := ⟨ht0, ht1⟩
      rw [if_pos hl, if_pos hr2]
  obtain ⟨u, rfl⟩ : ∃ u : Nat, t = (u : Int) := ⟨t.toNat, (Int.toNat_of_nonneg (not_lt.mp ht0)).symm⟩
  rw [seekg_tellg_nonneg data _ _ _ (by omega)]
  simp only [Int.toNat_ofNat]
  have hl : ¬ ((u : Int) ≠ u) := by simp
  have hr2 : ¬ ((u : Int) < 0 ∧ (u : Int) ≠ -1) := by omega
  rw [if_neg hl, if_neg hr2]
  by_cases hshort2 : 0 < H.numberOfFiles ∧ (data.length : Int) < u + 8 * H.numberOfFiles
  · have he := read_short data u (8 * k) ((8 * k : Nat) : Int) (Or.inr (by omega))
    have hr3 : (u : Int) = -1 ∨
        (0 < H.numberOfFiles ∧ (data.length : Int) < u + 8 * H.numberOfFiles) := Or.inr hshort2
    rw [if_pos ((check_iff _ _).mpr (Or.inl he)), if_pos hr3]
  have hr3 : ¬ ((u : Int) = -1 ∨
      (0 < H.numberOfFiles ∧ (data.length : Int) < u + 8 * H.numberOfFiles)) := by
    omega
  simp only [read_fits data u (8 * k) ((8 * k : Nat) : Int) (8 * k) rfl (by omega)]
  rw [if_neg (hchk _), if_neg hr3, tellg_good, toSizeT_natCast _ (by omega)]

/-! ## Decoding and framing: lemmas -/

theorem getD_take_drop (data : List Byte) (p m j : Nat) (d : Byte) (hj : j < m) :
    ((data.drop p).take m).getD j d = data.getD (p + j) d := by
  simp [List.getD_eq_getElem?_getD, List.getElem?_take, hj]

theorem leU32_take_drop (data : List Byte) (p m q : Nat) (hq : q + 4 ≤ m) :
    leU32 ((data.drop p).take m) q = leU32 data (p + q) := by
  unfold leU32
  rw [getD_take_drop _ _ _ _ _ (by omega), getD_take_drop _ _ _ _ _ (by omega),
    getD_take_drop _ _ _ _ _ (by omega), getD_take_drop _ _ _ _ _ (by omega)]
  simp only [Nat.add_assoc]

theorem getD_headerBytes (junk : Nat → Byte) (data : List Byte) (i : Nat) (hi : i < 12)
    (hl : i < data.length) :
    (headerBytes junk (data.take 12)).getD i 0 = data.getD i 0 := by
  simp [headerBytes, List.getD_eq_getElem?_getD, List.getElem?_take, hi, hl]

theorem leU32_headerBytes (junk : Nat → Byte) (data : List Byte) (q : Nat) (hq : q + 4 ≤ 12)
    (hl : q + 4 ≤ data.length) :
    leU32 (headerBytes junk (data.take 12)) q = leU32 data q := by
  unfold leU32
  rw [getD_headerBytes _ _ _ (by omega) (by omega), getD_headerBytes _ _ _ (by omega) (by omega),
    getD_headerBytes _ _ _ (by omega) (by omega), getD_headerBytes _ _ _ (by omega) (by omega)]
theorem read_data (s : IfStream) (n : Int) : (s.read n).1.data = s.data := by
  unfold IfStream.read
  split
  · dsimp only
    split <;> rfl
  · rfl

theorem seekg_data (s : IfStream) (off : Int) : (s.seekg off).data = s.data := by
  unfold IfStream.seekg
  simp only []
  split
  · rfl
  · split <;> rfl

theorem getFile_frame (A : BsaFile) (id : FileId) :
    ∃ f : IfStream, f.data = A.mFile.data ∧ (A.getFile id).1 = { A with mFile := f } := by
  unfold BsaFile.getFile
  split
  · split
    · have hd : ∀ (o z : Int), ((A.mFile.seekg o).read z).1.data = A.mFile.data := fun o z => by
        rw [read_data, seekg_data]
      dsimp only
      split
      · exact ⟨_, hd _ _, rfl⟩
      · split
        · exact ⟨_, hd _ _, rfl⟩
        · exact ⟨_, hd _ _, rfl⟩
    · exact ⟨A.mFile, rfl, rfl⟩
    · exact ⟨A.mFile, rfl, rfl⟩
  · exact ⟨A.mFile, rfl, rfl⟩

/-! ## Loaded archives: the invariant -/

theorem toInt32_add12 (x : Int) (h1 : -2147483648 ≤ x) (h2 : x < 2147483648)
    (h : 0 ≤ toInt32 (x + 12)) : toInt32 (x + 12) = x + 12 ∧ x + 12 < 2147483648 := by
  unfold toInt32 at h ⊢
  norm_num at h ⊢
  split at h <;> split <;> omega

theorem headerOf_eq (junk : Nat → Byte) (data : List Byte) (h : 12 ≤ data.length) :
    headerOf junk data = decodeHeader data := by
  simp only [headerOf, decodeHeader, leI32]
  rw [leU32_headerBytes junk data 0 (by omega) (by omega),
    leU32_headerBytes junk data 4 (by omega) (by omega),
    leU32_headerBytes junk data 8 (by omega) (by omega)]

theorem headerOf_hashTableOffset_range (junk : Nat → Byte) (data : List Byte) :
    -2147483648 ≤ (headerOf junk data).hashTableOffset ∧
      (headerOf junk data).hashTableOffset < 2147483648 := by
  simp only [headerOf, decodeHeader]
  exact leI32_range _ _

/-- What the constructor has established when it returns. -/
theorem construct_ok (this : Nat) (junk : Nat → Byte) (data : List Byte) (A : BsaFile)
    (h : BsaFile.construct this junk (some data) = .ok A) :
    LoadedInvariant A ∧ A.this = this ∧ A.mFile.data = data ∧ A.mHeader = headerOf junk data ∧
      A.mFile.eofbit = false ∧ A.mFile.failbit = false ∧ A.mFile.pos = A.mDataOffset := by
  rw [construct_some] at h
  have hn := headerOf_range junk data
  have hh := headerOf_hashTableOffset_range junk data
  unfold constructOutcome at h
  dsimp only at h
  split at h
  · cases h
  split at h
  · cases h
  split at h
  · cases h
  split at h
  · cases h
  split at h
  · cases h
  rename_i hv hneg hoff hseek hhash
  have h12 : 12 ≤ data.length := by omega
  have ht : 0 ≤ toInt32 ((headerOf junk data).hashTableOffset + 12) := by omega
  obtain ⟨hteq, htlt⟩ := toInt32_add12 _ hh.1 hh.2 ht
  rw [hteq] at h hhash
  injection h with h
  subst h
  refine ⟨⟨?_, ?_, ?_, ?_, ?_, ?_, ?_, ?_, ?_, ?_, ?_⟩, rfl, rfl, rfl, rfl, rfl, rfl⟩
  · dsimp only; exact headerOf_eq junk data h12
  · dsimp only
    by_contra hc
    exact hv hc
  · dsimp only; omega
  · dsimp only; omega
  · dsimp only; omega
  · dsimp only; exact htlt
  · dsimp only; omega
  · dsimp only; omega
  · dsimp only
  · dsimp only
  · dsimp only; omega

theorem loadedInvariant_frame (A : BsaFile) (f : IfStream) (hf : f.data = A.mFile.data)
    (h : LoadedInvariant A) : LoadedInvariant { A with mFile := f } := by
  unfold LoadedInvariant at h ⊢
  dsimp only
  rw [hf]
  exact h

theorem afterCalls_frame (ids : List FileId) : ∀ A : BsaFile,
    ∃ f : IfStream, f.data = A.mFile.data ∧ afterCalls A ids = { A with mFile := f } := by
  induction ids with
  | nil => intro A; exact ⟨A.mFile, rfl, rfl⟩
  | cons id ids ih =>
    intro A
    obtain ⟨f, hf, he⟩ := getFile_frame A id
    obtain ⟨g, hg, hge⟩ := ih (A.getFile id).1
    refine ⟨g, ?_, ?_⟩
    · rw [hg, he]; exact hf
    · rw [afterCalls, hge, he]

/-- Every loaded archive satisfies the invariant and keeps the address it
was constructed at. -/
theorem Loaded.invariant {A : BsaFile} (h : Loaded A) : LoadedInvariant A := by
  obtain ⟨this, junk, data, A0, ids, hc, rfl⟩ := h
  obtain ⟨f, hf, he⟩ := afterCalls_frame ids A0
  rw [he]
  exact loadedInvariant_frame A0 f hf (construct_ok this junk data A0 hc).1

/-! ## Lookup (C1 to C4) -/

theorem exists_notFound (o : Nat) : FileId.exists ⟨o, NOT_FOUND⟩ = false := by
  simp [FileId.exists]

theorem exists_iff (id : FileId) : id.exists = true ↔ id.mId ≠ NOT_FOUND := by
  simp [FileId.exists]

theorem getFileId_eq (A : BsaFile) (name : List Byte) :
    A.getFileId name =
      if binary_find A.mHashes (getStringHash name) = A.mHashes.length then ⟨A.this, NOT_FOUND⟩
      else ⟨A.this, binary_find A.mHashes (getStringHash name)⟩ := rfl

theorem Loaded.lengths {A : BsaFile} (h : Loaded A) :
    A.mHashes.length = A.mHeader.numberOfFiles.toNat ∧
      A.mOffsets.length = A.mHeader.numberOfFiles.toNat ∧
      A.mHeader.numberOfFiles.toNat < 268435456 := by
  obtain ⟨_, _, h0, h1, _, _, _, _, ho, hh, _⟩ := h.invariant
  refine ⟨?_, ?_, by omega⟩
  · rw [hh]; simp [decodeHashes]
  · rw [ho]; simp [decodeOffsets]

/-- A handle that `getFileId` found on a loaded archive passes the
assertions of the accessors. -/
theorem getFileId_asserts (A : BsaFile) (hA : Loaded A) (name : List Byte)
    (h : (A.getFileId name).exists = true) :
    (A.getFileId name).mId < A.mOffsets.length ∧
      A.assertsHold (A.getFileId name) = true := by
  obtain ⟨hlen, holen, _⟩ := hA.lengths
  rw [getFileId_eq] at h ⊢
  by_cases hb : binary_find A.mHashes (getStringHash name) = A.mHashes.length
  · rw [if_pos hb, exists_notFound] at h
    exact absurd h (by decide)
  · rw [if_neg hb]
    obtain ⟨hlt, _⟩ := binary_find_sound A.mHashes (getStringHash name) hb
    have hlt2 : binary_find A.mHashes (getStringHash name) < A.mOffsets.length := by omega
    exact ⟨hlt2, by simp [BsaFile.assertsHold, hlt2]⟩

/-- C1. Lookup ignores case and slash direction: two names that differ only
in ASCII letter case and in `/` versus `\` have the same hash in both words
and get the same handle from `getFileId`, on every archive; in particular a
name and its normal form (lower case, backslashes) do. -/
theorem getFileId_ignores_case_and_slash (A : BsaFile) (n m : List Byte)
    (h : List.Forall₂ sameChar n m) :
    (getStringHash n).hash1 = (getStringHash m).hash1 ∧
    (getStringHash n).hash2 = (getStringHash m).hash2 ∧
    A.getFileId n = A.getFileId m ∧
    getStringHash n = getStringHash (normalise n) ∧
    A.getFileId n = A.getFileId (normalise n) := by
  have key : ∀ a b : List Byte, List.Forall₂ sameChar a b →
      getStringHash a = getStringHash b := fun a b hab => by
    unfold getStringHash; rw [normalise_eq_of_sameChar hab]
  have h1 := key n m h
  have h2 := key n (normalise n) (forall₂_sameChar_normalise n)
  refine ⟨by rw [h1], by rw [h1], ?_, h2, ?_⟩
  · unfold BsaFile.getFileId; rw [h1]
  · unfold BsaFile.getFileId; rw [← h2]

theorem getFileId_ignores_case_and_slash_witness :
    List.Forall₂ sameChar nameSlash nameBackslashUpper ∧
    ((getStringHash nameSlash).hash1 = (getStringHash nameBackslashUpper).hash1 ∧
    (getStringHash nameSlash).hash2 = (getStringHash nameBackslashUpper).hash2 ∧
    sampleArchive.getFileId nameSlash = sampleArchive.getFileId nameBackslashUpper ∧
    getStringHash nameSlash = getStringHash (normalise nameSlash) ∧
    sampleArchive.getFileId nameSlash = sampleArchive.getFileId (normalise nameSlash)) :=
  ⟨by decide, getFileId_ignores_case_and_slash sampleArchive nameSlash nameBackslashUpper
    (by decide)⟩

/-- C2. Lookup never reports a file that is not in the table, sorted or not:
when the handle returned by `getFileId` exists, its index lies in the hash
table and the entry there equals the hash of the name in both words; hence
when no entry of the table equals (`operator==`) the hash of the name, the
handle does not exist. -/
theorem getFileId_exists_sound (A : BsaFile) (name : List Byte) :
    ((A.getFileId name).exists = true →
      (A.getFileId name).mId < A.mHashes.length ∧
      (A.mHashes.getD (A.getFileId name).mId ⟨0, 0⟩).hash1 = (getStringHash name).hash1 ∧
      (A.mHashes.getD (A.getFileId name).mId ⟨0, 0⟩).hash2 = (getStringHash name).hash2) ∧
    ((∀ i, i < A.mHashes.length →
        (A.mHashes.getD i ⟨0, 0⟩).eq (getStringHash name) = false) →
      (A.getFileId name).exists = false) := by
  rw [getFileId_eq]
  by_cases hb : binary_find A.mHashes (getStringHash name) = A.mHashes.length
  · rw [if_pos hb]
    refine ⟨fun he => ?_, fun _ => exists_notFound _⟩
    rw [exists_notFound] at he
    exact absurd he (by decide)
  · rw [if_neg hb]
    obtain ⟨hlt, heq⟩ := binary_find_sound A.mHashes (getStringHash name) hb
    refine ⟨fun _ => ⟨hlt, by rw [heq], by rw [heq]⟩, fun hall => ?_⟩
    have := hall _ hlt
    rw [heq] at this
    have h2 := (Hash.eq_iff (getStringHash name) (getStringHash name)).mpr rfl
    rw [this] at h2
    exact absurd h2 (by decide)

theorem getFileId_exists_sound_witness :
    ((sampleArchive.getFileId nameUpper).mId < sampleArchive.mHashes.length ∧
      (sampleArchive.mHashes.getD (sampleArchive.getFileId nameUpper).mId ⟨0, 0⟩).hash1
        = (getStringHash nameUpper).hash1 ∧
      (sampleArchive.mHashes.getD (sampleArchive.getFileId nameUpper).mId ⟨0, 0⟩).hash2
        = (getStringHash nameUpper).hash2) ∧
    (sampleArchive.getFileId nameAbsent).exists = false :=
  ⟨(getFileId_exists_sound sampleArchive nameUpper).1 (by decide),
   (getFileId_exists_sound sampleArchive nameAbsent).2 (by decide)⟩

/-- C3. Lookup finds every file that is in a sorted table: on a loaded archive
whose hash array is sorted ascending by `(hash1, hash2)`, a name whose hash
equals some entry of the array in both words gets a handle that exists. -/
theorem getFileId_finds_in_sorted (A : BsaFile) (hA : Loaded A)
    (hs : SortedHashes A.mHashes) (name : List Byte) (i : Nat) (hi : i < A.mHashes.length)
    (h1 : (A.mHashes.getD i ⟨0, 0⟩).hash1 = (getStringHash name).hash1)
    (h2 : (A.mHashes.getD i ⟨0, 0⟩).hash2 = (getStringHash name).hash2) :
    (A.getFileId name).exists = true := by
  have hv : A.mHashes.getD i ⟨0, 0⟩ = getStringHash name := by
    cases hx : A.mHashes.getD i ⟨0, 0⟩
    cases hy : getStringHash name
    rw [hx, hy] at h1 h2
    simp only at h1 h2
    rw [h1, h2]
  obtain ⟨hlt, _, _⟩ := binary_find_sorted A.mHashes (getStringHash name) hs i hi hv
  obtain ⟨hlen, _, hn⟩ := hA.lengths
  rw [getFileId_eq, if_neg (by omega), exists_iff]
  show binary_find A.mHashes (getStringHash name) ≠ NOT_FOUND
  unfold NOT_FOUND
  omega

theorem getFileId_finds_in_sorted_witness : (sampleArchive.getFileId nameSlash).exists = true :=
  getFileId_finds_in_sorted sampleArchive
    ⟨1, sampleJunk, sampleImage, sampleArchive, [], by decide, rfl⟩ (by decide) nameSlash 2
    (by decide) (by decide) (by decide)

/-- C4. Every handle produced by `getFileId` on a loaded archive is owned by
that archive and is either in the not-found state or holds an index in
`[0, numberOfFiles)`; it exists exactly when the binary search found a match;
and for a handle that exists the assertions of `getFileSize`, `getFileOffset`
and `getFile` hold. -/
theorem getFileId_handle_valid (A : BsaFile) (hA : Loaded A) (name : List Byte) :
    (A.getFileId name).mFileOwner = A.this ∧
    (((A.getFileId name).exists = false ∧ (A.getFileId name).mId = NOT_FOUND) ∨
      ((A.getFileId name).exists = true ∧ 0 ≤ ((A.getFileId name).mId : Int) ∧
        ((A.getFileId name).mId : Int) < A.mHeader.numberOfFiles)) ∧
    ((A.getFileId name).exists = true ↔
      binary_find A.mHashes (getStringHash name) ≠ A.mHashes.length) ∧
    ((A.getFileId name).exists = true →
      (A.getFileId name).mFileOwner = A.this ∧
      (A.getFileId name).mId < A.mOffsets.length ∧
      A.assertsHold (A.getFileId name) = true) := by
  obtain ⟨hlen, holen, hn⟩ := hA.lengths
  have hinv := hA.invariant
  have hn0 : 0 ≤ A.mHeader.numberOfFiles := hinv.2.2.1
  have hle := lower_bound_le A.mHashes (getStringHash name)
  rw [getFileId_eq]
  by_cases hb : binary_find A.mHashes (getStringHash name) = A.mHashes.length
  · rw [if_pos hb]
    refine ⟨rfl, Or.inl ⟨exists_notFound _, rfl⟩, ?_, fun he => ?_⟩
    · rw [exists_notFound]
      exact ⟨fun h => absurd h (by decide), fun h => absurd hb h⟩
    · rw [exists_notFound] at he
      exact absurd he (by decide)
  · rw [if_neg hb]
    obtain ⟨hlt, _⟩ := binary_find_sound A.mHashes (getStringHash name) hb
    have hex : FileId.exists ⟨A.this, binary_find A.mHashes (getStringHash name)⟩ = true := by
      rw [exists_iff]
      show binary_find A.mHashes (getStringHash name) ≠ NOT_FOUND
      unfold NOT_FOUND
      omega
    refine ⟨rfl, Or.inr ⟨hex, ?_, ?_⟩, ⟨fun _ => hb, fun _ => hex⟩, fun _ => ⟨rfl, ?_, ?_⟩⟩
    · show (0 : Int) ≤ ((binary_find A.mHashes (getStringHash name) : Nat) : Int)
      omega
    · show ((binary_find A.mHashes (getStringHash name) : Nat) : Int) < A.mHeader.numberOfFiles
      omega
    · show binary_find A.mHashes (getStringHash name) < A.mOffsets.length
      omega
    · have : binary_find A.mHashes (getStringHash name) < A.mOffsets.length := by omega
      simp [BsaFile.assertsHold, this]

theorem getFileId_handle_valid_witness :
    (sampleArchive.getFileId nameLower).mFileOwner = sampleArchive.this ∧
    (((sampleArchive.getFileId nameLower).exists = false ∧
        (sampleArchive.getFileId nameLower).mId = NOT_FOUND) ∨
      ((sampleArchive.getFileId nameLower).exists = true ∧
        0 ≤ ((sampleArchive.getFileId nameLower).mId : Int) ∧
        ((sampleArchive.getFileId nameLower).mId : Int) < sampleArchive.mHeader.numberOfFiles)) ∧
    ((sampleArchive.getFileId nameLower).exists = true ↔
      binary_find sampleArchive.mHashes (getStringHash nameLower) ≠ sampleArchive.mHashes.length) ∧
    ((sampleArchive.getFileId nameLower).exists = true →
      (sampleArchive.getFileId nameLower).mFileOwner = sampleArchive.this ∧
      (sampleArchive.getFileId nameLower).mId < sampleArchive.mOffsets.length ∧
      sampleArchive.assertsHold (sampleArchive.getFileId nameLower) = true) :=
  getFileId_handle_valid sampleArchive
    ⟨1, sampleJunk, sampleImage, sampleArchive, [], by decide, rfl⟩ nameLower

/-! ## Extraction (C5) -/

theorem toSizeT_lt (x : Int) : toSizeT x < 18446744073709551616 := by
  unfold toSizeT; norm_num; omega

theorem toInt64_natCast_nonneg (k : Nat) (hk : k < 18446744073709551616)
    (h : 0 ≤ toInt64 (k : Int)) : toInt64 (k : Int) = k := by
  unfold toInt64 at h ⊢
  norm_num at h ⊢
  split at h <;> split <;> omega

/-- A read that leaves neither `eofbit` nor `failbit` found the stream good
and stored exactly the `n` characters at the get position. -/
theorem read_ok (s : IfStream) (n : Int) (he : (s.read n).1.eofbit = false)
    (hf : (s.read n).1.failbit = false) :
    s.good = true ∧ 0 ≤ n ∧ (s.read n).2 = (s.data.drop s.pos).take n.toNat ∧
      (((s.data.drop s.pos).take n.toNat).length : Int) = n := by
  unfold IfStream.read at he hf ⊢
  by_cases hg : s.good = true
  · rw [if_pos hg] at he hf ⊢
    dsimp only at he hf ⊢
    by_cases hl : (((s.data.drop s.pos).take n.toNat).length : Int) = n
    · rw [if_pos hl] at he hf ⊢
      exact ⟨hg, by omega, rfl, hl⟩
    · rw [if_neg hl] at he
      simp at he
  · rw [if_neg hg] at hf
    simp at hf

/-- A `seekg` that leaves the stream good has moved it to `off`. -/
theorem seekg_good (s : IfStream) (off : Int) (h : (s.seekg off).good = true) :
    0 ≤ off ∧ (s.seekg off).pos = off.toNat := by
  unfold IfStream.seekg at h ⊢
  dsimp only at h ⊢
  split at h
  · rename_i hfail
    simp only [IfStream.fail] at hfail
    simp [IfStream.good, hfail] at h
  · split at h
    · simp [IfStream.good] at h
    · rename_i h1 h2
      rw [if_neg h1, if_neg h2]
      exact ⟨by omega, rfl⟩

theorem getFileOffset_lt (A : BsaFile) (id : FileId) (offset : Nat)
    (h : A.getFileOffset id = .ok offset) : offset < 18446744073709551616 := by
  unfold BsaFile.getFileOffset at h
  by_cases ha : A.assertsHold id = true
  · rw [if_pos ha] at h
    injection h with h
    rw [← h]
    unfold SIZE_RANGE
    omega
  · rw [if_neg ha] at h
    cases h

theorem getFileSize_lt (A : BsaFile) (id : FileId) (size : Nat)
    (h : A.getFileSize id = .ok size) : size < 18446744073709551616 := by
  unfold BsaFile.getFileSize at h
  by_cases ha : A.assertsHold id = true
  · rw [if_pos ha] at h
    injection h with h
    rw [← h]
    exact toSizeT_lt _
  · rw [if_neg ha] at h
    cases h

/-- C5. Extraction copies exactly the bytes of the file: whenever `getFile`
returns without throwing, in any state of the archive and for any handle,
`getFileOffset` and `getFileSize` return too, `dest` received
`getFileSize(id)` characters, and for every `k` below that size `dest[k]` is
byte `getFileOffset(id) + k` of the archive file. -/
theorem getFile_copies_file_bytes (A : BsaFile) (id : FileId) (dest : List Byte)
    (h : (A.getFile id).2 = .ok dest) :
    ∃ offset size : Nat, A.getFileOffset id = .ok offset ∧ A.getFileSize id = .ok size ∧
      dest.length = size ∧
      ∀ k, k < size → offset + k < A.mFile.data.length ∧
        dest[k]? = A.mFile.data[offset + k]? := by
  unfold BsaFile.getFile at h
  split at h
  swap
  · cases h
  split at h
  rotate_left
  · cases h
  · cases h
  rename_i offset size hoff hsize
  refine ⟨offset, size, hoff, hsize, ?_⟩
  dsimp only at h
  split at h
  · cases h
  split at h
  · cases h
  rename_i heof hfail
  simp only [IfStream.eof, Bool.not_eq_true] at heof
  simp only [IfStream.fail, Bool.not_eq_true] at hfail
  obtain ⟨hgood, hz, hgot, hlen⟩ := read_ok _ _ heof hfail
  obtain ⟨ho, hpos⟩ := seekg_good _ _ hgood
  have hoffset := getFileOffset_lt A id offset hoff
  have hsz := getFileSize_lt A id size hsize
  have ho' := toInt64_natCast_nonneg offset hoffset ho
  have hz' := toInt64_natCast_nonneg size hsz hz
  rw [hpos, seekg_data, ho', hz'] at hgot hlen
  simp only [Int.toNat_ofNat] at hgot hlen
  injection h with h
  rw [ho', hz', hgot] at h
  subst h
  have hlen' : ((A.mFile.data.drop offset).take size).length = size := by omega
  refine ⟨hlen', fun k hk => ?_⟩
  rw [List.length_take, List.length_drop] at hlen'
  refine ⟨by omega, ?_⟩
  rw [List.getElem?_take, List.getElem?_drop]
  simp [hk]

theorem getFile_copies_file_bytes_witness :
    ∃ offset size : Nat,
      sampleArchive.getFileOffset (sampleArchive.getFileId nameLower) = .ok offset ∧
      sampleArchive.getFileSize (sampleArchive.getFileId nameLower) = .ok size ∧
      [20, 21, 22].length = size ∧
      ∀ k, k < size → offset + k < sampleArchive.mFile.data.length ∧
        ([20, 21, 22] : List Byte)[k]? = sampleArchive.mFile.data[offset + k]? :=
  getFile_copies_file_bytes sampleArchive (sampleArchive.getFileId nameLower) [20, 21, 22]
    (by decide)

/-! ## Offsets and sizes (C6, C7) -/

theorem getD_decodeOffsets (n : Nat) (mem : List Byte) (i : Nat) (hi : i < n) :
    (decodeOffsets n mem).getD i ⟨0, 0⟩ =
      { fileSize := leI32 mem (8 * i), fileOffset := leI32 mem (8 * i + 4) } := by
  simp [decodeOffsets, List.getD_eq_getElem?_getD, hi]

theorem getD_decodeHashes (n : Nat) (mem : List Byte) (i : Nat) (hi : i < n) :
    (decodeHashes n mem).getD i ⟨0, 0⟩ =
      { hash1 := leU32 mem (8 * i), hash2 := leU32 mem (8 * i + 4) } := by
  simp [decodeHashes, List.getD_eq_getElem?_getD, hi]

theorem getFileOffset_of_asserts (A : BsaFile) (id : FileId) (h : A.assertsHold id = true) :
    A.getFileOffset id =
      .ok ((toSizeT (A.mOffsets.getD id.mId ⟨0, 0⟩).fileOffset + A.mDataOffset) % SIZE_RANGE) := by
  unfold BsaFile.getFileOffset
  rw [if_pos h]

theorem getFileSize_of_asserts (A : BsaFile) (id : FileId) (h : A.assertsHold id = true) :
    A.getFileSize id = .ok (toSizeT (A.mOffsets.getD id.mId ⟨0, 0⟩).fileSize) := by
  unfold BsaFile.getFileSize
  rw [if_pos h]

theorem sizeT_sum (x : Int) (d : Nat) :
    (((toSizeT x + d) % SIZE_RANGE : Nat) : Int) = (x + d) % 18446744073709551616 := by
  unfold toSizeT SIZE_RANGE
  norm_num
  omega

/-- C6, falsified as stated: in the archive loaded from `imageNegOffset` the
handle of the empty name exists, its relative offset is `-100` and the data
section starts at 28, but `getFileOffset` returns `2^64 - 72`, which is not
the sum `-72`. -/
theorem getFileOffset_not_plain_sum :
    BsaFile.construct 1 sampleJunk (some imageNegOffset) = .ok archiveNegOffset ∧
    (archiveNegOffset.getFileId []).exists = true ∧
    archiveNegOffset.getFileOffset (archiveNegOffset.getFileId []) = .ok 18446744073709551544 ∧
    (archiveNegOffset.mOffsets.getD (archiveNegOffset.getFileId []).mId ⟨0, 0⟩).fileOffset
      + (archiveNegOffset.mDataOffset : Int) = -72 ∧
    ¬ ∃ off : Nat,
      archiveNegOffset.getFileOffset (archiveNegOffset.getFileId []) = .ok off ∧
      (off : Int) =
        (archiveNegOffset.mOffsets.getD (archiveNegOffset.getFileId []).mId ⟨0, 0⟩).fileOffset
          + (archiveNegOffset.mDataOffset : Int) := by
  refine ⟨by decide, by decide, by decide, by decide, ?_⟩
  rintro ⟨off, h1, h2⟩
  have h3 : archiveNegOffset.getFileOffset (archiveNegOffset.getFileId [])
      = .ok 18446744073709551544 := by decide
  have h4 : (archiveNegOffset.mOffsets.getD (archiveNegOffset.getFileId []).mId ⟨0, 0⟩).fileOffset
      + (archiveNegOffset.mDataOffset : Int) = -72 := by decide
  rw [h3] at h1
  injection h1 with h1
  rw [h4] at h2
  omega

/-- C6, amended. For every loaded archive and every found handle with index
`i`, `getFileOffset` returns `offsets[i].fileOffset + dataSectionOffset`
reduced modulo `2^64` (the range of `size_t`), which is the sum itself
whenever the sum is not negative; and `dataSectionOffset` is
`hashTableOffset + 12 + 8 * numberOfFiles`. -/
theorem getFileOffset_eq (A : BsaFile) (hA : Loaded A) (name : List Byte)
    (h : (A.getFileId name).exists = true) :
    ∃ off : Nat, A.getFileOffset (A.getFileId name) = .ok off ∧
      (off : Int) = ((A.mOffsets.getD (A.getFileId name).mId ⟨0, 0⟩).fileOffset
        + (A.mDataOffset : Int)) % 18446744073709551616 ∧
      (0 ≤ (A.mOffsets.getD (A.getFileId name).mId ⟨0, 0⟩).fileOffset + (A.mDataOffset : Int) →
        (off : Int) = (A.mOffsets.getD (A.getFileId name).mId ⟨0, 0⟩).fileOffset
          + (A.mDataOffset : Int)) ∧
      (A.mDataOffset : Int) = A.mHeader.hashTableOffset + 12 + 8 * A.mHeader.numberOfFiles := by
  obtain ⟨hlt, ha⟩ := getFileId_asserts A hA name h
  obtain ⟨_, _, hn0, hn1, ht0, ht1, _, _, ho, _, hd⟩ := hA.invariant
  obtain ⟨_, holen, _⟩ := hA.lengths
  have hsum := sizeT_sum (A.mOffsets.getD (A.getFileId name).mId ⟨0, 0⟩).fileOffset A.mDataOffset
  refine ⟨(toSizeT (A.mOffsets.getD (A.getFileId name).mId ⟨0, 0⟩).fileOffset + A.mDataOffset)
    % SIZE_RANGE, ?_, ?_, ?_, ?_⟩
  · exact getFileOffset_of_asserts A _ ha
  · exact hsum
  · intro hpos
    rw [hsum]
    have hr : -2147483648 ≤ (A.mOffsets.getD (A.getFileId name).mId ⟨0, 0⟩).fileOffset ∧
        (A.mOffsets.getD (A.getFileId name).mId ⟨0, 0⟩).fileOffset < 2147483648 := by
      rw [ho, getD_decodeOffsets _ _ _ (by omega)]
      dsimp only
      exact leI32_range _ _
    omega
  · exact hd

theorem getFileOffset_eq_witness :
    ∃ off : Nat, sampleArchive.getFileOffset (sampleArchive.getFileId nameLower) = .ok off ∧
      (off : Int) = ((sampleArchive.mOffsets.getD (sampleArchive.getFileId nameLower).mId
        ⟨0, 0⟩).fileOffset + (sampleArchive.mDataOffset : Int)) % 18446744073709551616 ∧
      (0 ≤ (sampleArchive.mOffsets.getD (sampleArchive.getFileId nameLower).mId ⟨0, 0⟩).fileOffset
          + (sampleArchive.mDataOffset : Int) →
        (off : Int) = (sampleArchive.mOffsets.getD (sampleArchive.getFileId nameLower).mId
          ⟨0, 0⟩).fileOffset + (sampleArchive.mDataOffset : Int)) ∧
      (sampleArchive.mDataOffset : Int) = sampleArchive.mHeader.hashTableOffset + 12
        + 8 * sampleArchive.mHeader.numberOfFiles :=
  getFileOffset_eq sampleArchive ⟨1, sampleJunk, sampleImage, sampleArchive, [], by decide, rfl⟩
    nameLower (by decide)

/-- C7, falsified as stated: in the archive loaded from `imageNegSize` the
handle of the empty name exists with index 0 and the `int` at byte 12 of the
file is `-1`, but `getFileSize` returns `2^64 - 1`. -/
theorem getFileSize_not_int32 :
    BsaFile.construct 1 sampleJunk (some imageNegSize) = .ok archiveNegSize ∧
    (archiveNegSize.getFileId []).exists = true ∧
    (archiveNegSize.getFileId []).mId = 0 ∧
    leI32 imageNegSize (12 + 8 * 0) = -1 ∧
    archiveNegSize.getFileSize (archiveNegSize.getFileId []) = .ok 18446744073709551615 ∧
    ¬ ∃ size : Nat,
      archiveNegSize.getFileSize (archiveNegSize.getFileId []) = .ok size ∧
      (size : Int) = leI32 imageNegSize (12 + 8 * 0) := by
  refine ⟨by decide, by decide, by decide, by decide, by decide, ?_⟩
  rintro ⟨size, h1, h2⟩
  have h3 : archiveNegSize.getFileSize (archiveNegSize.getFileId [])
      = .ok 18446744073709551615 := by decide
  have h4 : leI32 imageNegSize (12 + 8 * 0) = -1 := by decide
  rw [h3] at h1
  injection h1 with h1
  rw [h4] at h2
  omega

theorem toSizeT_cast (x : Int) : ((toSizeT x : Nat) : Int) = x % 18446744073709551616 := by
  unfold toSizeT
  norm_num
  omega

theorem int32_emod_sizeT (x : Int) (h1 : -2147483648 ≤ x) (h2 : x < 2147483648) :
    (0 ≤ x → x % 18446744073709551616 = x) ∧
      (x < 0 → x % 18446744073709551616 = x + 18446744073709551616) := by
  constructor <;> intro h <;> omega

/-- C7, amended. For every loaded archive and every `i < numberOfFiles`, the
entries `offsets[i]` and `hashes[i]` are the little-endian `int`s at bytes
`12 + 8i` and `12 + 8i + 4` of the file and the little-endian
`unsigned int`s at bytes `hashTableOffset + 12 + 8i` and `+ 4`; and
`getFileSize` of a found handle with index `i` is the `int` at byte
`12 + 8i` converted to `size_t`: the value itself when it is not negative,
the value plus `2^64` when it is. -/
theorem tables_decode_file (A : BsaFile) (hA : Loaded A) (i : Nat)
    (hi : (i : Int) < A.mHeader.numberOfFiles) :
    (A.mOffsets.getD i ⟨0, 0⟩).fileSize = leI32 A.mFile.data (12 + 8 * i) ∧
    (A.mOffsets.getD i ⟨0, 0⟩).fileOffset = leI32 A.mFile.data (12 + 8 * i + 4) ∧
    (A.mHashes.getD i ⟨0, 0⟩).hash1 =
      leU32 A.mFile.data ((A.mHeader.hashTableOffset + 12).toNat + 8 * i) ∧
    (A.mHashes.getD i ⟨0, 0⟩).hash2 =
      leU32 A.mFile.data ((A.mHeader.hashTableOffset + 12).toNat + 8 * i + 4) ∧
    ∀ name : List Byte, (A.getFileId name).exists = true → (A.getFileId name).mId = i →
      ∃ size : Nat, A.getFileSize (A.getFileId name) = .ok size ∧
        (size : Int) = leI32 A.mFile.data (12 + 8 * i) % 18446744073709551616 ∧
        (0 ≤ leI32 A.mFile.data (12 + 8 * i) → (size : Int) = leI32 A.mFile.data (12 + 8 * i)) ∧
        (leI32 A.mFile.data (12 + 8 * i) < 0 →
          (size : Int) = leI32 A.mFile.data (12 + 8 * i) + 18446744073709551616) := by
  obtain ⟨_, _, hn0, hn1, ht0, ht1, _, _, ho, hh, hd⟩ := hA.invariant
  have hin : i < A.mHeader.numberOfFiles.toNat := by omega
  have hsz : (A.mOffsets.getD i ⟨0, 0⟩).fileSize = leI32 A.mFile.data (12 + 8 * i) := by
    rw [ho, getD_decodeOffsets _ _ _ hin]
    dsimp only
    unfold leI32
    rw [leU32_take_drop _ _ _ _ (by omega)]
  refine ⟨hsz, ?_, ?_, ?_, ?_⟩
  · rw [ho, getD_decodeOffsets _ _ _ hin]
    dsimp only
    unfold leI32
    rw [leU32_take_drop _ _ _ _ (by omega), Nat.add_assoc]
  · rw [hh, getD_decodeHashes _ _ _ hin]
    dsimp only
    rw [leU32_take_drop _ _ _ _ (by omega)]
  · rw [hh, getD_decodeHashes _ _ _ hin]
    dsimp only
    rw [leU32_take_drop _ _ _ _ (by omega), Nat.add_assoc]
  · intro name hex hid
    obtain ⟨_, ha⟩ := getFileId_asserts A hA name hex
    have hr := leI32_range A.mFile.data (12 + 8 * i)
    have hcast := toSizeT_cast (leI32 A.mFile.data (12 + 8 * i))
    refine ⟨toSizeT (leI32 A.mFile.data (12 + 8 * i)), ?_, hcast, ?_, ?_⟩
    · rw [getFileSize_of_asserts A _ ha, hid, hsz]
    · intro h0
      rw [hcast]
      exact (int32_emod_sizeT _ hr.1 hr.2).1 h0
    · intro h0
      rw [hcast]
      exact (int32_emod_sizeT _ hr.1 hr.2).2 h0

theorem tables_decode_file_witness :
    (sampleArchive.mOffsets.getD 1 ⟨0, 0⟩).fileSize = leI32 sampleArchive.mFile.data (12 + 8 * 1) ∧
    (sampleArchive.mOffsets.getD 1 ⟨0, 0⟩).fileOffset
      = leI32 sampleArchive.mFile.data (12 + 8 * 1 + 4) ∧
    (sampleArchive.mHashes.getD 1 ⟨0, 0⟩).hash1 =
      leU32 sampleArchive.mFile.data ((sampleArchive.mHeader.hashTableOffset + 12).toNat + 8 * 1) ∧
    (sampleArchive.mHashes.getD 1 ⟨0, 0⟩).hash2 =
      leU32 sampleArchive.mFile.data
        ((sampleArchive.mHeader.hashTableOffset + 12).toNat + 8 * 1 + 4) ∧
    ∀ name : List Byte, (sampleArchive.getFileId name).exists = true →
      (sampleArchive.getFileId name).mId = 1 →
      ∃ size : Nat, sampleArchive.getFileSize (sampleArchive.getFileId name) = .ok size ∧
        (size : Int) = leI32 sampleArchive.mFile.data (12 + 8 * 1) % 18446744073709551616 ∧
        (0 ≤ leI32 sampleArchive.mFile.data (12 + 8 * 1) →
          (size : Int) = leI32 sampleArchive.mFile.data (12 + 8 * 1)) ∧
        (leI32 sampleArchive.mFile.data (12 + 8 * 1) < 0 →
          (size : Int) = leI32 sampleArchive.mFile.data (12 + 8 * 1) + 18446744073709551616) :=
  tables_decode_file sampleArchive ⟨1, sampleJunk, sampleImage, sampleArchive, [], by decide, rfl⟩
    1 (by decide)

/-! ## Loading (C8, C9, C10) -/

theorem zeroImage_length (size : Nat) : (zeroImage size).length = 12 + size := by
  unfold zeroImage
  rw [List.length_append, List.length_replicate]
  rfl

theorem zeroImage_header (size : Nat) :
    leI32 (zeroImage size) 0 = 256 ∧ leI32 (zeroImage size) 4 = 0 ∧
      leI32 (zeroImage size) 8 = 268435456 := by
  simp [zeroImage, leI32, leU32, toInt32, List.getD_eq_getElem?_getD]
  decide


theorem headerOf_version (junk : Nat → Byte) (data : List Byte) (h : 4 ≤ data.length) :
    (headerOf junk data).version = leI32 data 0 := by
  simp only [headerOf, decodeHeader, leI32]
  rw [leU32_headerBytes junk data 0 (by omega) (by omega)]

/-- C9. A wrong magic number is always rejected: for every readable file of
at least four bytes (so also every file with a whole 12-byte header) whose
version field differs from `0x00000100`, the constructor throws the
bad-magic exception and returns no archive, whatever the rest of the file
and whatever the memory of `mHeader` held before. -/
theorem construct_bad_magic (this : Nat) (junk : Nat → Byte) (data : List Byte)
    (hlen : 4 ≤ data.length) (hv : leI32 data 0 ≠ 0x00000100) :
    BsaFile.construct this junk (some data) = .error .badMagic := by
  rw [construct_some]
  unfold constructOutcome
  dsimp only
  rw [headerOf_version junk data hlen, if_pos hv]

theorem construct_bad_magic_witness :
    4 ≤ imageBadMagic.length ∧ leI32 imageBadMagic 0 ≠ 0x00000100 ∧
      BsaFile.construct 1 sampleJunk (some imageBadMagic) = .error .badMagic :=
  ⟨by decide, by decide, construct_bad_magic 1 sampleJunk imageBadMagic (by decide) (by decide)⟩

/-- C8, at the failing input. The file `hugeImage` of `12 + 2^31` bytes
satisfies every premise of the claim: version `0x00000100`,
`numberOfFiles = 2^28` in `[0, 2^31)`, `2^28` complete offset records after
the header, `hashTableOffset = 0`, and `2^28` complete hash records from byte
12. The constructor throws "Failed to read the file offsets": the read is
complete, with `gcount() = 2^31`, but `gcount()` is compared with
`static_cast<int>(8 * 2^28) = -2^31`. -/
theorem construct_rejects_complete_tables (this : Nat) (junk : Nat → Byte) :
    CompleteTables hugeImage ∧
    ((IfStream.open hugeImage).read 12).1.read (toInt64 ((8 * 268435456 : Nat) : Int)) =
      ({ data := hugeImage, pos := 12 + 2147483648, eofbit := false, failbit := false,
         gcount := 2147483648 }, (hugeImage.drop 12).take 2147483648) ∧
    toInt32 ((8 * 268435456 : Nat) : Int) = -2147483648 ∧
    BsaFile.construct this junk (some hugeImage) = .error .offsetsRead := by
  have hl : hugeImage.length = 12 + 2147483648 := zeroImage_length 2147483648
  obtain ⟨h0, h4, h8⟩ : leI32 hugeImage 0 = 256 ∧ leI32 hugeImage 4 = 0 ∧
      leI32 hugeImage 8 = 268435456 := zeroImage_header 2147483648
  refine ⟨?_, ?_, ?_, ?_⟩
  · unfold CompleteTables
    rw [h0, h4, h8, hl]
    norm_num
  · rw [open_read, if_pos (by omega)]
    dsimp only
    have h64 : toInt64 ((8 * 268435456 : Nat) : Int) = ((2147483648 : Nat) : Int) := by
      unfold toInt64; norm_num
    rw [h64, read_fits hugeImage 12 12 _ 2147483648 rfl (Or.inr (by omega))]
  · unfold toInt32; norm_num
  · rw [construct_some]
    unfold constructOutcome
    dsimp only
    rw [headerOf_eq junk hugeImage (by omega)]
    have hv : (decodeHeader hugeImage).version = 256 := h0
    have hn : (decodeHeader hugeImage).numberOfFiles = 268435456 := h8
    rw [hv, hn, hl]
    norm_num

theorem headerOf_fields (junk : Nat → Byte) (data : List Byte) (h : 12 ≤ data.length) :
    (headerOf junk data).version = leI32 data 0 ∧
      (headerOf junk data).hashTableOffset = leI32 data 4 ∧
      (headerOf junk data).numberOfFiles = leI32 data 8 := by
  rw [headerOf_eq junk data h]
  simp [decodeHeader]

theorem outcome_offsets (this : Nat) (junk : Nat → Byte) (data : List Byte)
    (hv : (headerOf junk data).version = 256) (hn : 0 ≤ (headerOf junk data).numberOfFiles)
    (h : (data.length : Int) < 12 + 8 * (headerOf junk data).numberOfFiles ∨
      268435456 ≤ (headerOf junk data).numberOfFiles) :
    constructOutcome this junk data = .error .offsetsRead := by
  unfold constructOutcome
  dsimp only
  have c1 : ¬ ((headerOf junk data).version ≠ 256) := by rw [hv]; simp
  have c2 : ¬ ((headerOf junk data).numberOfFiles < 0) := by omega
  rw [if_neg c1, if_neg c2, if_pos h]

theorem outcome_seek (this : Nat) (junk : Nat → Byte) (data : List Byte)
    (hv : (headerOf junk data).version = 256) (hn : 0 ≤ (headerOf junk data).numberOfFiles)
    (h3 : ¬ ((data.length : Int) < 12 + 8 * (headerOf junk data).numberOfFiles ∨
      268435456 ≤ (headerOf junk data).numberOfFiles))
    (h : toInt32 ((headerOf junk data).hashTableOffset + 12) < 0 ∧
      toInt32 ((headerOf junk data).hashTableOffset + 12) ≠ -1) :
    constructOutcome this junk data = .error .seekFailed := by
  unfold constructOutcome
  dsimp only
  have c1 : ¬ ((headerOf junk data).version ≠ 256) := by rw [hv]; simp
  have c2 : ¬ ((headerOf junk data).numberOfFiles < 0) := by omega
  rw [if_neg c1, if_neg c2, if_neg h3, if_pos h]

theorem outcome_hashes (this : Nat) (junk : Nat → Byte) (data : List Byte)
    (hv : (headerOf junk data).version = 256) (hn : 0 ≤ (headerOf junk data).numberOfFiles)
    (h3 : ¬ ((data.length : Int) < 12 + 8 * (headerOf junk data).numberOfFiles ∨
      268435456 ≤ (headerOf junk data).numberOfFiles))
    (h4 : ¬ (toInt32 ((headerOf junk data).hashTableOffset + 12) < 0 ∧
      toInt32 ((headerOf junk data).hashTableOffset + 12) ≠ -1))
    (h : toInt32 ((headerOf junk data).hashTableOffset + 12) = -1 ∨
      (0 < (headerOf junk data).numberOfFiles ∧
        (data.length : Int) < toInt32 ((headerOf junk data).hashTableOffset + 12)
          + 8 * (headerOf junk data).numberOfFiles)) :
    constructOutcome this junk data = .error .hashesRead := by
  unfold constructOutcome
  dsimp only
  have c1 : ¬ ((headerOf junk data).version ≠ 256) := by rw [hv]; simp
  have c2 : ¬ ((headerOf junk data).numberOfFiles < 0) := by omega
  rw [if_neg c1, if_neg c2, if_neg h3, if_neg h4, if_pos h]

theorem bytesAvailableFrom_lt (data : List Byte) (p k : Int) (hp : 0 ≤ p)
    (h : (bytesAvailableFrom data p : Int) < k) : (data.length : Int) < p + k := by
  unfold bytesAvailableFrom at h
  rw [if_neg (by omega)] at h
  obtain ⟨q, rfl⟩ : ∃ q : Nat, p = (q : Int) := ⟨p.toNat, (Int.toNat_of_nonneg hp).symm⟩
  rw [Int.toNat_ofNat] at h
  omega

/-- Within the limits of the `int` arithmetic of the constructor, complete
tables do load: fewer than `2^28` files and `hashTableOffset + 12 < 2^31`. -/
theorem construct_succeeds (this : Nat) (junk : Nat → Byte) (data : List Byte)
    (h : CompleteTables data) (hn : leI32 data 8 < 268435456)
    (ht : leI32 data 4 + 12 < 2147483648) :
    ∃ A : BsaFile, BsaFile.construct this junk (some data) = .ok A := by
  obtain ⟨h12, hv, hn0, _, hoff, ht0, hhash⟩ := h
  obtain ⟨e0, e4, e8⟩ := headerOf_fields junk data h12
  have e32 : toInt32 (leI32 data 4 + 12) = leI32 data 4 + 12 :=
    toInt32_of_range (by omega) ht
  rw [construct_some]
  unfold constructOutcome
  dsimp only
  rw [e0, e4, e8, e32]
  have c1 : ¬ (leI32 data 0 ≠ 256) := by rw [hv]; simp
  have c2 : ¬ (leI32 data 8 < 0) := by omega
  have c3 : ¬ ((data.length : Int) < 12 + 8 * leI32 data 8 ∨ 268435456 ≤ leI32 data 8) := by
    omega
  have c4 : ¬ (leI32 data 4 + 12 < 0 ∧ leI32 data 4 + 12 ≠ -1) := by omega
  have c5 : ¬ (leI32 data 4 + 12 = -1 ∨
      (0 < leI32 data 8 ∧ (data.length : Int) < leI32 data 4 + 12 + 8 * leI32 data 8)) := by
    omega
  rw [if_neg c1, if_neg c2, if_neg c3, if_neg c4, if_neg c5]
  exact ⟨_, rfl⟩

/-- The file `imageNegHashOffset` has a valid magic number,
`numberOfFiles = 1`, a complete offset record after the header and
`hashTableOffset + 12 = -88`, a position from which no byte is available; in
the runs in which memory is granted the constructor throws the seek error,
not the hash-table error. -/
theorem construct_seek_error_before_hash_error :
    (headerOf sampleJunk imageNegHashOffset).version = 256 ∧
    (headerOf sampleJunk imageNegHashOffset).numberOfFiles = 1 ∧
    (headerOf sampleJunk imageNegHashOffset).hashTableOffset + 12 = -88 ∧
    ¬ ((imageNegHashOffset.length : Int) <
      12 + 8 * (headerOf sampleJunk imageNegHashOffset).numberOfFiles) ∧
    (bytesAvailableFrom imageNegHashOffset
      ((headerOf sampleJunk imageNegHashOffset).hashTableOffset + 12) : Int) <
      8 * (headerOf sampleJunk imageNegHashOffset).numberOfFiles ∧
    BsaFile.construct 1 sampleJunk (some imageNegHashOffset) = .error .seekFailed ∧
    BsaFile.construct 1 sampleJunk (some imageNegHashOffset) ≠ .error .hashesRead := by
  refine ⟨by decide, by decide, by decide, by decide, by decide, by decide, by decide⟩

/-- Truncated tables in the runs in which both `resize` calls obtain their
memory. For every file whose header, as the constructor reads it, has a
valid magic number and `numberOfFiles = n ≥ 1`: if fewer than `8n` bytes
follow the 12-byte header, the outcome is the offset-table error; otherwise,
if `n < 2^28`, the position `hashTableOffset + 12` lies in `[0, 2^31)` and
fewer than `8n` bytes are available from it, the outcome is the hash-table
error; if instead `n < 2^28` and that position is negative and not `-1`, it
is the seek error; and whenever either table is truncated no archive is
produced. -/
theorem construct_truncated_granted (this : Nat) (junk : Nat → Byte) (data : List Byte)
    (hv : (headerOf junk data).version = 256) (hn : 1 ≤ (headerOf junk data).numberOfFiles) :
    ((data.length : Int) < 12 + 8 * (headerOf junk data).numberOfFiles →
      BsaFile.construct this junk (some data) = .error .offsetsRead) ∧
    (¬ ((data.length : Int) < 12 + 8 * (headerOf junk data).numberOfFiles) →
      (headerOf junk data).numberOfFiles < 268435456 →
      0 ≤ (headerOf junk data).hashTableOffset + 12 →
      (headerOf junk data).hashTableOffset + 12 < 2147483648 →
      (bytesAvailableFrom data ((headerOf junk data).hashTableOffset + 12) : Int) <
        8 * (headerOf junk data).numberOfFiles →
      BsaFile.construct this junk (some data) = .error .hashesRead) ∧
    (¬ ((data.length : Int) < 12 + 8 * (headerOf junk data).numberOfFiles) →
      (headerOf junk data).numberOfFiles < 268435456 →
      (headerOf junk data).hashTableOffset + 12 < 0 →
      (headerOf junk data).hashTableOffset + 12 ≠ -1 →
      BsaFile.construct this junk (some data) = .error .seekFailed) ∧
    (((data.length : Int) < 12 + 8 * (headerOf junk data).numberOfFiles ∨
      (bytesAvailableFrom data ((headerOf junk data).hashTableOffset + 12) : Int) <
        8 * (headerOf junk data).numberOfFiles) →
      ∃ e : BsaError, BsaFile.construct this junk (some data) = .error e) := by
  have hn0 : 0 ≤ (headerOf junk data).numberOfFiles := by omega
  have hr := headerOf_hashTableOffset_range junk data
  rw [construct_some]
  have p1 : (data.length : Int) < 12 + 8 * (headerOf junk data).numberOfFiles →
      constructOutcome this junk data = .error .offsetsRead :=
    fun h => outcome_offsets this junk data hv hn0 (Or.inl h)
  have p2 : ¬ ((data.length : Int) < 12 + 8 * (headerOf junk data).numberOfFiles) →
      (headerOf junk data).numberOfFiles < 268435456 →
      0 ≤ (headerOf junk data).hashTableOffset + 12 →
      (headerOf junk data).hashTableOffset + 12 < 2147483648 →
      (bytesAvailableFrom data ((headerOf junk data).hashTableOffset + 12) : Int) <
        8 * (headerOf junk data).numberOfFiles →
      constructOutcome this junk data = .error .hashesRead := by
    intro h1 h2 h3 h4 h5
    have e32 := toInt32_of_range (x := (headerOf junk data).hashTableOffset + 12) (by omega) h4
    have h6 := bytesAvailableFrom_lt data _ _ h3 h5
    refine outcome_hashes this junk data hv hn0 (by omega) ?_ ?_
    · rw [e32]; omega
    · rw [e32]; exact Or.inr ⟨by omega, h6⟩
  have p3 : ¬ ((data.length : Int) < 12 + 8 * (headerOf junk data).numberOfFiles) →
      (headerOf junk data).numberOfFiles < 268435456 →
      (headerOf junk data).hashTableOffset + 12 < 0 →
      (headerOf junk data).hashTableOffset + 12 ≠ -1 →
      constructOutcome this junk data = .error .seekFailed := by
    intro h1 h2 h3 h4
    have e32 := toInt32_of_range (x := (headerOf junk data).hashTableOffset + 12) (by omega)
      (by omega)
    refine outcome_seek this junk data hv hn0 (by omega) ?_
    rw [e32]
    exact ⟨h3, h4⟩
  refine ⟨p1, p2, p3, ?_⟩
  intro h
  by_cases hshort : (data.length : Int) < 12 + 8 * (headerOf junk data).numberOfFiles
  · exact ⟨_, p1 hshort⟩
  have havail : (bytesAvailableFrom data ((headerOf junk data).hashTableOffset + 12) : Int) <
      8 * (headerOf junk data).numberOfFiles := by
    rcases h with h | h
    · exact absurd h hshort
    · exact h
  by_cases hbig : 268435456 ≤ (headerOf junk data).numberOfFiles
  · exact ⟨_, outcome_offsets this junk data hv hn0 (Or.inr hbig)⟩
  by_cases hseek : toInt32 ((headerOf junk data).hashTableOffset + 12) < 0 ∧
      toInt32 ((headerOf junk data).hashTableOffset + 12) ≠ -1
  · exact ⟨_, outcome_seek this junk data hv hn0 (by omega) hseek⟩
  by_cases hm1 : toInt32 ((headerOf junk data).hashTableOffset + 12) = -1
  · exact ⟨_, outcome_hashes this junk data hv hn0 (by omega) hseek (Or.inl hm1)⟩
  have ht0 : 0 ≤ toInt32 ((headerOf junk data).hashTableOffset + 12) := by omega
  obtain ⟨e32, hlt⟩ := toInt32_add12 _ hr.1 hr.2 ht0
  have h6 := bytesAvailableFrom_lt data _ _ (by omega) havail
  refine ⟨_, outcome_hashes this junk data hv hn0 (by omega) hseek (Or.inr ⟨by omega, ?_⟩)⟩
  rw [e32]
  exact h6

theorem construct_truncated_granted_sample :
    BsaFile.construct 1 sampleJunk (some imageShortOffsets) = .error .offsetsRead ∧
    BsaFile.construct 1 sampleJunk (some imageShortHashes) = .error .hashesRead ∧
    BsaFile.construct 1 sampleJunk (some imageNegHashOffset) = .error .seekFailed ∧
    ∃ e : BsaError, BsaFile.construct 1 sampleJunk (some imageNegHashOffset) = .error e :=
  ⟨(construct_truncated_granted 1 sampleJunk imageShortOffsets (by decide) (by decide)).1
      (by decide),
   (construct_truncated_granted 1 sampleJunk imageShortHashes (by decide) (by decide)).2.1
      (by decide) (by decide) (by decide) (by decide) (by decide),
   (construct_truncated_granted 1 sampleJunk imageNegHashOffset (by decide) (by decide)).2.2.1
      (by decide) (by decide) (by decide) (by decide),
   (construct_truncated_granted 1 sampleJunk imageNegHashOffset (by decide) (by decide)).2.2.2
      (Or.inr (by decide))⟩

/-! ## Invariants and order (C11, C12, C13, C19) -/

/-- C11. For every successfully loaded archive the offset array and the hash
array both have exactly `mHeader.numberOfFiles` entries, and after any
sequence of later `getFile` calls the header and both arrays are what the
constructor made them (`getFileId`, `getFileSize` and `getFileOffset` only
read the archive and return a value), so the lengths stay the same. -/
theorem tables_sized_and_fixed (this : Nat) (junk : Nat → Byte) (data : List Byte)
    (A0 : BsaFile) (h : BsaFile.construct this junk (some data) = .ok A0)
    (ids : List FileId) :
    (A0.mOffsets.length : Int) = A0.mHeader.numberOfFiles ∧
    (A0.mHashes.length : Int) = A0.mHeader.numberOfFiles ∧
    A0.mOffsets.length = A0.mHashes.length ∧
    (afterCalls A0 ids).mHeader = A0.mHeader ∧
    (afterCalls A0 ids).mOffsets = A0.mOffsets ∧
    (afterCalls A0 ids).mHashes = A0.mHashes ∧
    ((afterCalls A0 ids).mOffsets.length : Int) = (afterCalls A0 ids).mHeader.numberOfFiles ∧
    ((afterCalls A0 ids).mHashes.length : Int) = (afterCalls A0 ids).mHeader.numberOfFiles := by
  have hL : Loaded A0 := ⟨this, junk, data, A0, [], h, rfl⟩
  obtain ⟨hh, ho, _⟩ := hL.lengths
  have hn0 : 0 ≤ A0.mHeader.numberOfFiles := hL.invariant.2.2.1
  obtain ⟨f, _, he⟩ := afterCalls_frame ids A0
  have e1 : (A0.mOffsets.length : Int) = A0.mHeader.numberOfFiles := by
    rw [ho]; exact Int.toNat_of_nonneg hn0
  have e2 : (A0.mHashes.length : Int) = A0.mHeader.numberOfFiles := by
    rw [hh]; exact Int.toNat_of_nonneg hn0
  rw [he]
  exact ⟨e1, e2, by rw [ho, hh], rfl, rfl, rfl, e1, e2⟩

theorem tables_sized_and_fixed_witness :
    (sampleArchive.mOffsets.length : Int) = sampleArchive.mHeader.numberOfFiles ∧
    (sampleArchive.mHashes.length : Int) = sampleArchive.mHeader.numberOfFiles ∧
    sampleArchive.mOffsets.length = sampleArchive.mHashes.length ∧
    (afterCalls sampleArchive [⟨1, 1⟩, ⟨1, 7⟩]).mHeader = sampleArchive.mHeader ∧
    (afterCalls sampleArchive [⟨1, 1⟩, ⟨1, 7⟩]).mOffsets = sampleArchive.mOffsets ∧
    (afterCalls sampleArchive [⟨1, 1⟩, ⟨1, 7⟩]).mHashes = sampleArchive.mHashes ∧
    ((afterCalls sampleArchive [⟨1, 1⟩, ⟨1, 7⟩]).mOffsets.length : Int)
      = (afterCalls sampleArchive [⟨1, 1⟩, ⟨1, 7⟩]).mHeader.numberOfFiles ∧
    ((afterCalls sampleArchive [⟨1, 1⟩, ⟨1, 7⟩]).mHashes.length : Int)
      = (afterCalls sampleArchive [⟨1, 1⟩, ⟨1, 7⟩]).mHeader.numberOfFiles :=
  tables_sized_and_fixed 1 sampleJunk sampleImage sampleArchive (by decide) [⟨1, 1⟩, ⟨1, 7⟩]

/-- C12. The order on hashes is lexicographic with `hash1` as primary key:
`a < b` holds if and only if `a.hash1 < b.hash1`, or `a.hash1 = b.hash1` and
`a.hash2 < b.hash2`. -/
theorem hash_lt_lexicographic (a b : Hash) :
    a.lt b = true ↔ a.hash1 < b.hash1 ∨ (a.hash1 = b.hash1 ∧ a.hash2 < b.hash2) := by
  unfold Hash.lt
  rw [Bool.or_eq_true, Bool.and_eq_true, Bool.not_eq_true', decide_eq_true_eq,
    decide_eq_false_iff_not, decide_eq_true_eq]
  constructor
  · rintro (h | ⟨h1, h2⟩)
    · exact Or.inl h
    · by_cases h3 : a.hash1 < b.hash1
      · exact Or.inl h3
      · exact Or.inr ⟨by omega, h2⟩
  · rintro (h | ⟨h1, h2⟩)
    · exact Or.inl h
    · exact Or.inr ⟨by omega, h2⟩

/-- C13. Hash comparison is a trichotomy consistent with equality: exactly
one of `a < b`, `a == b`, `b < a` holds; so equal hashes are neither less
than the other, and unequal hashes are ordered one way and not the other. -/
theorem hash_trichotomy (a b : Hash) :
    ((a.lt b = true ∧ a.eq b = false ∧ b.lt a = false) ∨
      (a.lt b = false ∧ a.eq b = true ∧ b.lt a = false) ∨
      (a.lt b = false ∧ a.eq b = false ∧ b.lt a = true)) ∧
    (a.eq b = true → a.lt b = false ∧ b.lt a = false) ∧
    (a.eq b = false →
      (a.lt b = true ∧ b.lt a = false) ∨ (a.lt b = false ∧ b.lt a = true)) := by
  have key : (a.lt b = true ∧ a.eq b = false ∧ b.lt a = false) ∨
      (a.lt b = false ∧ a.eq b = true ∧ b.lt a = false) ∨
      (a.lt b = false ∧ a.eq b = false ∧ b.lt a = true) := by
    have h1 := Hash.lt_iff a b
    have h2 := Hash.lt_iff b a
    have h3 : a.eq b = true ↔ a.hash1 = b.hash1 ∧ a.hash2 = b.hash2 := by
      simp [Hash.eq]
    cases hab : a.lt b <;> cases hba : b.lt a <;> cases he : a.eq b <;>
      simp only [hab, hba, he, Bool.false_eq_true, false_iff, true_iff, not_or, not_and,
        not_lt] at h1 h2 h3 <;> simp <;> omega
  refine ⟨key, fun he => ?_, fun he => ?_⟩
  · rcases key with ⟨_, h, _⟩ | ⟨h1, _, h2⟩ | ⟨_, h, _⟩
    · rw [he] at h; exact absurd h (by decide)
    · exact ⟨h1, h2⟩
    · rw [he] at h; exact absurd h (by decide)
  · rcases key with ⟨h1, _, h2⟩ | ⟨_, h, _⟩ | ⟨h1, _, h2⟩
    · exact Or.inl ⟨h1, h2⟩
    · rw [he] at h; exact absurd h (by decide)
    · exact Or.inr ⟨h1, h2⟩

theorem hash_trichotomy_witness :
    (Hash.lt ⟨1, 2⟩ ⟨1, 2⟩ = false ∧ Hash.lt ⟨1, 2⟩ ⟨1, 2⟩ = false) ∧
    ((Hash.lt ⟨1, 0⟩ ⟨1, 2⟩ = true ∧ Hash.lt ⟨1, 2⟩ ⟨1, 0⟩ = false) ∨
      (Hash.lt ⟨1, 0⟩ ⟨1, 2⟩ = false ∧ Hash.lt ⟨1, 2⟩ ⟨1, 0⟩ = true)) :=
  ⟨(hash_trichotomy ⟨1, 2⟩ ⟨1, 2⟩).2.1 (by decide),
   (hash_trichotomy ⟨1, 0⟩ ⟨1, 2⟩).2.2 (by decide)⟩

/-- C19. Among duplicate hashes lookup returns the first one: on a loaded
archive whose hash array is sorted ascending by `(hash1, hash2)`, for a name
whose hash occurs in the array the handle exists, the entry at its index
equals the hash of the name, and no entry before that index does: the index
is at most every `j` with `mHashes[j] == getStringHash(name)`. -/
theorem getFileId_first_of_duplicates (A : BsaFile) (hA : Loaded A)
    (hs : SortedHashes A.mHashes) (name : List Byte) (i : Nat) (hi : i < A.mHashes.length)
    (hv : (A.mHashes.getD i ⟨0, 0⟩).eq (getStringHash name) = true) :
    (A.getFileId name).exists = true ∧
    (A.getFileId name).mId < A.mHashes.length ∧
    (A.mHashes.getD (A.getFileId name).mId ⟨0, 0⟩).eq (getStringHash name) = true ∧
    ∀ j, j < A.mHashes.length →
      (A.mHashes.getD j ⟨0, 0⟩).eq (getStringHash name) = true → (A.getFileId name).mId ≤ j := by
  obtain ⟨hlt, _, hval⟩ := binary_find_sorted A.mHashes (getStringHash name) hs i hi
    ((Hash.eq_iff _ _).mp hv)
  obtain ⟨hlen, _, hn⟩ := hA.lengths
  have hne : binary_find A.mHashes (getStringHash name) ≠ A.mHashes.length := by omega
  rw [getFileId_eq, if_neg hne]
  refine ⟨?_, hlt, (Hash.eq_iff _ _).mpr hval, fun j hj hjv => ?_⟩
  · rw [exists_iff]
    show binary_find A.mHashes (getStringHash name) ≠ NOT_FOUND
    unfold NOT_FOUND
    omega
  · exact (binary_find_sorted A.mHashes (getStringHash name) hs j hj
      ((Hash.eq_iff _ _).mp hjv)).2.1

theorem getFileId_first_of_duplicates_witness :
    (archiveDuplicates.getFileId nameX).exists = true ∧
    (archiveDuplicates.getFileId nameX).mId < archiveDuplicates.mHashes.length ∧
    (archiveDuplicates.mHashes.getD (archiveDuplicates.getFileId nameX).mId ⟨0, 0⟩).eq
      (getStringHash nameX) = true ∧
    ∀ j, j < archiveDuplicates.mHashes.length →
      (archiveDuplicates.mHashes.getD j ⟨0, 0⟩).eq (getStringHash nameX) = true →
      (archiveDuplicates.getFileId nameX).mId ≤ j :=
  getFileId_first_of_duplicates archiveDuplicates
    ⟨1, sampleJunk, imageDuplicates, archiveDuplicates, [], by decide, rfl⟩ (by decide) nameX 2
    (by decide) (by decide)

/-! ## Cost of lookup (C18) -/

theorem lowerBoundLoopCount_fst (v : List Hash) (value : Hash) :
    ∀ (f first len : Nat),
      (lowerBoundLoopCount v value f first len).1 = lowerBoundLoop v value f first len := by
  intro f
  induction f with
  | zero => intro first len; rfl
  | succ f ih =>
    intro first len
    simp only [lowerBoundLoopCount, lowerBoundLoop]
    split
    · split
      · exact ih _ _
      · exact ih _ _
    · rfl

theorem lowerBoundLoopCount_le (v : List Hash) (value : Hash) :
    ∀ (f first len k : Nat), len < 2 ^ k →
      (lowerBoundLoopCount v value f first len).2 ≤ k := by
  intro f
  induction f with
  | zero => intro first len k _; simp [lowerBoundLoopCount]
  | succ f ih =>
    intro first len k hk
    simp only [lowerBoundLoopCount, shiftRight_one]
    split
    · rename_i hpos
      have hk1 : 1 ≤ k := by
        rcases Nat.eq_zero_or_pos k with h0 | h0
        · subst h0
          simp at hk
          omega
        · exact h0
      obtain ⟨j, rfl⟩ : ∃ j, k = j + 1 := ⟨k - 1, by omega⟩
      have hpow : 2 ^ (j + 1) = 2 * 2 ^ j := by rw [Nat.pow_succ]; omega
      split
      · have := ih (first + len / 2 + 1) (len - len / 2 - 1) j (by omega)
        simp only []
        omega
      · have := ih first (len / 2) j (by omega)
        simp only []
        omega
    · simp

theorem binaryFindCount_fst (v : List Hash) (value : Hash) :
    (binaryFindCount v value).1 = binary_find v value := by
  unfold binaryFindCount binary_find lower_bound
  simp only [lowerBoundLoopCount_fst]
  by_cases h : lowerBoundLoop v value v.length 0 v.length = v.length
  · simp [h]
  · by_cases he : (v.getD (lowerBoundLoop v value v.length 0 v.length) ⟨0, 0⟩).eq value = true
    · simp [h, he]
    · simp [h, he]

/-- C18. Lookup takes logarithmically many comparisons: on every archive
whose hash array has `n` entries (`n` is `numberOfFiles` on a loaded archive;
`n >= 1` or not) and for every name, `getFileId` with its comparisons counted
returns the handle of `getFileId` after at most `floor(log2 n) + 1`
evaluations of `operator<` and at most one of `operator==`, whatever the
array holds. -/
theorem getFileId_comparisons (A : BsaFile) (name : List Byte) :
    (A.getFileIdCount name).1 = A.getFileId name ∧
    (A.getFileIdCount name).2.1 ≤ Nat.log2 A.mHashes.length + 1 ∧
    (A.getFileIdCount name).2.2 ≤ 1 := by
  have hb := binaryFindCount_fst A.mHashes (getStringHash name)
  have hlt := lowerBoundLoopCount_le A.mHashes (getStringHash name) A.mHashes.length 0
    A.mHashes.length (Nat.log2 A.mHashes.length + 1) Nat.lt_log2_self
  refine ⟨?_, ?_, ?_⟩
  · unfold BsaFile.getFileIdCount BsaFile.getFileId
    simp only [hb]
  · unfold BsaFile.getFileIdCount binaryFindCount
    dsimp only
    split <;> exact hlt
  · unfold BsaFile.getFileIdCount binaryFindCount
    dsimp only
    split <;> simp

/-- On `sampleArchive`, with three files, the lookup of `b/c.nif` makes two
evaluations of `operator<`, which is `floor(log2 3) + 1`, and one of
`operator==`. -/
theorem getFileId_comparisons_sample :
    (sampleArchive.getFileIdCount nameSlash).2 = (2, 1) := by
  decide

/-! ## The string hasher (C14, C20) -/

theorem and31 (x : Nat) : x &&& 0x1F = x % 32 := Nat.and_pow_two_sub_one_eq_mod x 5

theorem shl32_eq (x k : Nat) : shl32 x k = (x * 2 ^ k) % 4294967296 := by
  unfold shl32
  rw [Nat.shiftLeft_eq]
  norm_num

theorem shl32_32 (x : Nat) : shl32 x 32 = 0 := by
  rw [shl32_eq]
  omega

/-- The rotation of the code is the rotation of the specification: for
`n = 0` the shift by 32 contributes nothing. -/
theorem rotate_eq (sum n : Nat) :
    (shl32 sum (32 - n) ||| shr32 sum n) = rotateRight32 sum n := by
  unfold rotateRight32
  by_cases h : n = 0
  · subst h
    rw [if_pos rfl]
    simp [shl32_32, shr32]
  · rw [if_neg h]
    rfl

theorem hash1_loop (s : List Byte) : ∀ k : Nat,
    (List.range k).foldl (hash1Step s) (0, 0) = (specHash1 byteValue s k, (8 * k) % 2 ^ 32) := by
  intro k
  induction k with
  | zero => rfl
  | succ k ih =>
    rw [List.range_succ, List.foldl_append, ih]
    simp only [List.foldl_cons, List.foldl_nil, hash1Step, specHash1, List.range_succ,
      List.foldl_append, shl32, and31]
    refine Prod.ext ?_ ?_
    · dsimp only
      have : (8 * k) % 2 ^ 32 % 32 = (8 * k) % 32 := by omega
      rw [this]
    · dsimp only
      omega

theorem hash2_loop (s : List Byte) (l : Nat) : ∀ m : Nat,
    (List.range' l m).foldl (hash2Step s) (0, 0) =
      (specHash2 byteValue s l (l + m), (8 * m) % 2 ^ 32) := by
  intro m
  induction m with
  | zero => simp [specHash2]
  | succ m ih =>
    rw [List.range'_concat, List.foldl_append, ih]
    have e1 : l + (m + 1) - l = m + 1 := by omega
    have e2 : l + m - l = m := by omega
    have e3 : l + 1 * m - l = m := by omega
    simp only [List.foldl_cons, List.foldl_nil, hash2Step, specHash2, e1, e2, e3,
      List.range'_concat, List.foldl_append, shl32, and31]
    refine Prod.ext ?_ ?_
    · dsimp only
      have : (8 * m) % 2 ^ 32 % 32 = (8 * m) % 32 := by omega
      rw [this]
      exact rotate_eq _ _
    · dsimp only
      omega

/-- The loops of `getStringHash` compute the fingerprint of the
specification, with `byteValue` the conversion of the `char` to
`unsigned int` and `len` the length reduced to an `unsigned int`. -/
theorem hashOfNormalised_eq (s : List Byte) :
    hashOfNormalised s = specHash byteValue s (s.length % 2 ^ 32) := by
  unfold hashOfNormalised specHash
  dsimp only
  rw [hash1_loop, hash2_loop]
  have : (s.length % 2 ^ 32) >>> 1 + (s.length % 2 ^ 32 - (s.length % 2 ^ 32) >>> 1)
      = s.length % 2 ^ 32 := by
    rw [shiftRight_one]
    omega
  rw [this]

set_option maxRecDepth 100000 in
theorem byteValue_of_lt : ∀ c : Byte, c.val < 128 → byteValue c = c.val := by
  decide

theorem specHash_congr_bv (bv1 bv2 : Byte → Nat) (s : List Byte) (len : Nat)
    (h : ∀ i, bv1 (s.getD i 0) = bv2 (s.getD i 0)) : specHash bv1 s len = specHash bv2 s len := by
  unfold specHash specHash1 specHash2
  simp only [h]

theorem specHash_congr_str (bv : Byte → Nat) (s t : List Byte) (len : Nat)
    (h : ∀ i, i < len → s.getD i 0 = t.getD i 0) : specHash bv s len = specHash bv t len := by
  have hl : len >>> 1 ≤ len := by rw [shiftRight_one]; omega
  unfold specHash specHash1 specHash2
  congr 1
  · apply List.foldl_ext
    intro a i hi
    rw [List.mem_range] at hi
    rw [h i (by omega)]
  · apply List.foldl_ext
    intro a i hi
    rw [List.mem_range'_1] at hi
    rw [h i (by omega)]

theorem normalise_length (str : List Byte) : (normalise str).length = str.length := by
  simp [normalise]

theorem getD_of_all_lt (s : List Byte) (h : ∀ c ∈ s, c.val < 128) (i : Nat) :
    (s.getD i 0).val < 128 := by
  rw [List.getD_eq_getElem?_getD]
  cases hi : s[i]? with
  | none => simp
  | some c =>
    simp only [Option.getD_some]
    exact h c (List.getElem?_mem hi)

/-- C14, amended. `getStringHash` computes the two-word fingerprint of the
specification with `byteValue` the `char` converted to `unsigned int` (the
byte value below `0x80`, the byte value plus `0xFFFFFF00` from `0x80` up) and
`len` the length reduced modulo `2^32`; so for a name shorter than `2^32`
whose normalised characters are all below `0x80`, the fingerprint is the
specified one with `byteValue` the value of the byte and `len` the length. -/
theorem getStringHash_eq_spec (str : List Byte) :
    getStringHash str =
      specHash byteValue (normalise str) ((normalise str).length % 2 ^ 32) ∧
    ((normalise str).length < 2 ^ 32 → (∀ c ∈ normalise str, c.val < 128) →
      getStringHash str = specHash plainByteValue (normalise str) (normalise str).length) := by
  have h1 : getStringHash str =
      specHash byteValue (normalise str) ((normalise str).length % 2 ^ 32) :=
    hashOfNormalised_eq (normalise str)
  refine ⟨h1, fun hlen hascii => ?_⟩
  rw [h1, Nat.mod_eq_of_lt hlen]
  apply specHash_congr_bv
  intro i
  exact byteValue_of_lt _ (getD_of_all_lt _ hascii i)

set_option maxRecDepth 100000 in
theorem getStringHash_eq_spec_witness :
    getStringHash nameSlash =
      specHash byteValue (normalise nameSlash) ((normalise nameSlash).length % 2 ^ 32) ∧
    getStringHash nameSlash =
      specHash plainByteValue (normalise nameSlash) (normalise nameSlash).length :=
  ⟨(getStringHash_eq_spec nameSlash).1,
   (getStringHash_eq_spec nameSlash).2 (by decide) (by decide)⟩

/-- For the name of the single character `0xE9` the fingerprint differs from
the one computed with the plain byte value: the `char` is negative and its
conversion to `unsigned int` is `0xFFFFFFE9`. -/
theorem getStringHash_sign_extends :
    byteValue 233 = 4294967273 ∧
    getStringHash nameLatin1 = ⟨0, 4110417919⟩ ∧
    specHash plainByteValue (normalise nameLatin1) (normalise nameLatin1).length
      = ⟨0, 1954545664⟩ := by
  decide

theorem longName_length (size : Nat) : (longName size).length = size + 1 := by
  simp [longName]

theorem normalise_longName (size : Nat) : normalise (longName size) = longName size := by
  have h1 : replaceSlash (tolower 97) = 97 := by decide
  have h2 : replaceSlash (tolower 0) = 0 := by decide
  simp [normalise, longName, List.map_replicate, h1, h2]

theorem longName_getD_zero (size : Nat) : (longName size).getD 0 0 = 97 := by
  simp [longName]

theorem longName_getD_succ (size i : Nat) (hi : 1 ≤ i) : (longName size).getD i 0 = 0 := by
  obtain ⟨j, rfl⟩ : ∃ j, i = j + 1 := ⟨i - 1, by omega⟩
  unfold longName
  rw [List.getD_cons_succ, List.getD_eq_getElem?_getD, List.getElem?_replicate]
  split <;> rfl

/-- A string whose characters from index 1 on are zero: the first word of the
specification is the first character, for every `l >= 1`. -/
theorem specHash1_zero_tail (bv : Byte → Nat) (h0 : bv 0 = 0) (s : List Byte)
    (hz : ∀ i, 1 ≤ i → s.getD i 0 = 0) :
    ∀ l, 1 ≤ l → specHash1 bv s l = bv (s.getD 0 0) % 2 ^ 32 := by
  intro l
  induction l with
  | zero => intro h; omega
  | succ k ih =>
    intro _
    rcases Nat.eq_zero_or_pos k with hk | hk
    · subst hk
      simp only [specHash1, List.range_succ, List.range_zero, List.nil_append, List.foldl_cons,
        List.foldl_nil, Nat.mul_zero, Nat.zero_and, Nat.shiftLeft_zero, Nat.zero_xor]
    · have e := ih hk
      unfold specHash1 at e ⊢
      rw [List.range_succ, List.foldl_append, e]
      simp only [List.foldl_cons, List.foldl_nil]
      rw [hz k hk, h0, Nat.zero_shiftLeft, Nat.zero_mod, Nat.xor_zero]

/-- A string whose characters from index 1 on are zero: the second word of
the specification is zero when the loop starts at `l >= 1`. -/
theorem specHash2_zero_tail (bv : Byte → Nat) (h0 : bv 0 = 0) (s : List Byte)
    (hz : ∀ i, 1 ≤ i → s.getD i 0 = 0) (l : Nat) (hl : 1 ≤ l) :
    ∀ m, (List.range' l m).foldl
      (fun sum i =>
        rotateRight32 (sum ^^^ ((bv (s.getD i 0) <<< ((8 * (i - l)) &&& 0x1F)) % 2 ^ 32))
          (((bv (s.getD i 0) <<< ((8 * (i - l)) &&& 0x1F)) % 2 ^ 32) &&& 0x1F)) 0 = 0 := by
  intro m
  induction m with
  | zero => rfl
  | succ m ih =>
    rw [List.range'_concat, List.foldl_append, ih]
    simp only [List.foldl_cons, List.foldl_nil]
    rw [hz (l + 1 * m) (by omega), h0, Nat.zero_shiftLeft, Nat.zero_mod]
    rfl

theorem specHash_longName (bv : Byte → Nat) (h0 : bv 0 = 0) (size len : Nat) (hl : 2 ≤ len) :
    specHash bv (longName size) len = ⟨bv 97 % 2 ^ 32, 0⟩ := by
  have hl1 : 1 ≤ len >>> 1 := by rw [shiftRight_one]; omega
  unfold specHash
  rw [specHash1_zero_tail bv h0 _ (longName_getD_succ size) _ hl1, longName_getD_zero]
  unfold specHash2
  rw [specHash2_zero_tail bv h0 _ (longName_getD_succ size) _ hl1]

theorem getStringHash_longName (size : Nat) (h : (size + 1) % 2 ^ 32 = 1) :
    getStringHash (longName size) = ⟨0, 2147483696⟩ := by
  unfold getStringHash
  rw [normalise_longName, hashOfNormalised_eq, longName_length, h,
    specHash_congr_str byteValue (longName size) [97] 1
      (fun i hi => by
        have : i = 0 := by omega
        subst this
        exact longName_getD_zero size)]
  decide

/-- C14, falsified as stated: for the name `hugeName` of `2^32 + 1`
characters, the letter `a` followed by zeros, `getStringHash` works with
`len = 1` and returns `(0, 0x80000030)`, while the specified fingerprint with
`len` the length, `2^32 + 1`, is `(97, 0)`, with either reading of
`byteValue`. -/
theorem getStringHash_truncates_length :
    (normalise hugeName).length = 4294967297 ∧
    getStringHash hugeName = ⟨0, 2147483696⟩ ∧
    specHash plainByteValue (normalise hugeName) (normalise hugeName).length = ⟨97, 0⟩ ∧
    specHash byteValue (normalise hugeName) (normalise hugeName).length = ⟨97, 0⟩ ∧
    getStringHash hugeName ≠
      specHash plainByteValue (normalise hugeName) (normalise hugeName).length ∧
    getStringHash hugeName ≠
      specHash byteValue (normalise hugeName) (normalise hugeName).length := by
  have hn : normalise hugeName = longName 4294967296 := normalise_longName 4294967296
  have hlen : (longName 4294967296).length = 4294967297 := longName_length 4294967296
  have hcode : getStringHash hugeName = ⟨0, 2147483696⟩ :=
    getStringHash_longName 4294967296 (by norm_num)
  have hp : specHash plainByteValue (longName 4294967296) 4294967297 = ⟨97, 0⟩ :=
    specHash_longName plainByteValue (by decide) 4294967296 4294967297 (by norm_num)
  have hb : specHash byteValue (longName 4294967296) 4294967297 = ⟨97, 0⟩ :=
    specHash_longName byteValue (by decide) 4294967296 4294967297 (by norm_num)
  rw [hn, hlen, hcode, hp, hb]
  exact ⟨rfl, rfl, rfl, rfl, by decide, by decide⟩

theorem hash2State_off (s : List Byte) (l i : Nat) :
    (hash2State s l i).2 = (8 * (i - l)) % 2 ^ 32 := by
  unfold hash2State
  rw [hash2_loop]

theorem hash2State_succ (s : List Byte) (l i : Nat) (h : l ≤ i) :
    hash2State s l (i + 1) = hash2Step s (hash2State s l i) i := by
  unfold hash2State
  have e : i + 1 - l = (i - l) + 1 := by omega
  have e2 : l + 1 * (i - l) = i := by omega
  rw [e, List.range'_concat, List.foldl_append, e2]
  rfl

set_option maxRecDepth 100000 in
theorem byteValue_low5 : ∀ c : Byte, byteValue c % 32 = c.val % 32 := by
  decide

set_option maxRecDepth 100000 in
theorem byteValue_lt : ∀ c : Byte, byteValue c < 4294967296 := by
  decide

theorem shl32_low5 (x k : Nat) (hk : k = 8 ∨ k = 16 ∨ k = 24) : shl32 x k % 32 = 0 := by
  rw [shl32_eq]
  rcases hk with rfl | rfl | rfl <;> omega

/-- C20. In the second loop of `getStringHash`, started at `l`, on entry to
iteration `i >= l`: when `(i - l) mod 4` is not 0 the rotation amount
`n = temp & 0x1F` is 0 and the step leaves `sum ^ temp` in `sum`; when
`(i - l) mod 4` is 0, `temp` is the converted character and `n` is the low
five bits of its byte value. The states are those of the loop: each is the
step applied to the one before, and the last one holds `hash2`. -/
theorem hash2_rotation_every_fourth (s : List Byte) (l i : Nat) (h : l ≤ i) :
    ((i - l) % 4 ≠ 0 →
      hash2Rotation s l i = 0 ∧
      (hash2Step s (hash2State s l i) i).1 = (hash2State s l i).1 ^^^ hash2Temp s l i) ∧
    ((i - l) % 4 = 0 →
      hash2Temp s l i = byteValue (s.getD i 0) ∧
      hash2Rotation s l i = (s.getD i 0).val &&& 0x1F) ∧
    hash2State s l (i + 1) = hash2Step s (hash2State s l i) i ∧
    (hashOfNormalised s).hash2 =
      (hash2State s ((s.length % 2 ^ 32) >>> 1) (s.length % 2 ^ 32)).1 := by
  have hoff := hash2State_off s l i
  have hshift : (hash2State s l i).2 &&& 0x1F = (8 * (i - l)) % 32 := by
    rw [and31, hoff]
    omega
  refine ⟨fun hne => ?_, fun heq => ?_, hash2State_succ s l i h, rfl⟩
  · have hk : (8 * (i - l)) % 32 = 8 ∨ (8 * (i - l)) % 32 = 16 ∨ (8 * (i - l)) % 32 = 24 := by
      omega
    have hn : hash2Rotation s l i = 0 := by
      unfold hash2Rotation hash2Temp
      rw [hshift, and31]
      exact shl32_low5 _ _ hk
    refine ⟨hn, ?_⟩
    have hn' : hash2Temp s l i &&& 0x1F = 0 := hn
    unfold hash2Step
    dsimp only
    show (shl32 ((hash2State s l i).1 ^^^ hash2Temp s l i) (32 - (hash2Temp s l i &&& 0x1F))
      ||| shr32 ((hash2State s l i).1 ^^^ hash2Temp s l i) (hash2Temp s l i &&& 0x1F)) = _
    rw [hn', rotate_eq]
    rfl
  · have hk : (8 * (i - l)) % 32 = 0 := by omega
    have ht : hash2Temp s l i = byteValue (s.getD i 0) := by
      unfold hash2Temp
      rw [hshift, hk, shl32_eq]
      have := byteValue_lt (s.getD i 0)
      omega
    refine ⟨ht, ?_⟩
    unfold hash2Rotation
    rw [ht, and31, and31]
    exact byteValue_low5 _

theorem hash2_rotation_every_fourth_witness :
    ((5 - 3) % 4 ≠ 0 →
      hash2Rotation (normalise nameSlash) 3 5 = 0 ∧
      (hash2Step (normalise nameSlash) (hash2State (normalise nameSlash) 3 5) 5).1 =
        (hash2State (normalise nameSlash) 3 5).1 ^^^ hash2Temp (normalise nameSlash) 3 5) ∧
    ((5 - 3) % 4 = 0 →
      hash2Temp (normalise nameSlash) 3 5 = byteValue ((normalise nameSlash).getD 5 0) ∧
      hash2Rotation (normalise nameSlash) 3 5 = ((normalise nameSlash).getD 5 0).val &&& 0x1F) ∧
    hash2State (normalise nameSlash) 3 (5 + 1) =
      hash2Step (normalise nameSlash) (hash2State (normalise nameSlash) 3 5) 5 ∧
    (hashOfNormalised (normalise nameSlash)).hash2 =
      (hash2State (normalise nameSlash) (((normalise nameSlash).length % 2 ^ 32) >>> 1)
        ((normalise nameSlash).length % 2 ^ 32)).1 :=
  hash2_rotation_every_fourth (normalise nameSlash) 3 5 (by decide)

/-! ## Outcomes of extraction (C15, C16, C17) -/

theorem seekg_ok (s : IfStream) (off : Int) (hf : s.failbit = false) (h0 : 0 ≤ off) :
    s.seekg off =
      { data := s.data, pos := off.toNat, eofbit := false, failbit := false,
        gcount := s.gcount } := by
  have hn : ¬ off < 0 := by omega
  unfold IfStream.seekg
  simp only [IfStream.fail, hf, if_neg hn, Bool.false_eq_true, if_false]

theorem seekg_fails (s : IfStream) (off : Int) (h : s.failbit = true ∨ off < 0) :
    (s.seekg off).failbit = true ∧ (s.seekg off).eofbit = false := by
  unfold IfStream.seekg
  dsimp only [IfStream.fail]
  by_cases hf : s.failbit = true
  · rw [if_pos hf]
    exact ⟨hf, rfl⟩
  · rw [if_neg hf]
    have hn : off < 0 := by
      rcases h with h | h
      · exact absurd h hf
      · exact h
    rw [if_pos hn]
    exact ⟨rfl, rfl⟩

theorem read_of_failed (s : IfStream) (n : Int) (hf : s.failbit = true) :
    s.read n = ({ s with failbit := true, gcount := 0 }, []) := by
  unfold IfStream.read
  simp [IfStream.good, hf]

theorem read_short_failbit (d : List Byte) (p g : Nat) (n : Int)
    (h : n < 0 ∨ (0 < n ∧ (d.length : Int) < p + n)) :
    (IfStream.read { data := d, pos := p, eofbit := false, failbit := false, gcount := g } n).1.failbit
      = true := by
  have hl : (((d.drop p).take n.toNat).length : Int) ≠ n := by
    rw [List.length_take, List.length_drop]; omega
  simp only [IfStream.read, IfStream.good, Bool.not_false, Bool.and_self, if_true, if_neg hl]

theorem toInt64_natCast_small (k : Nat) (hk : k < 9223372036854775808) :
    toInt64 (k : Int) = k := by
  unfold toInt64
  norm_num
  split <;> omega

theorem toInt64_natCast_big (k : Nat) (h1 : 9223372036854775808 ≤ k)
    (h2 : k < 18446744073709551616) : toInt64 (k : Int) < 0 := by
  unfold toInt64
  norm_num
  split <;> omega

/-- The body of `getFile` once the assertions of the accessors hold. -/
theorem getFile_of_asserts (A : BsaFile) (id : FileId) (h : A.assertsHold id = true)
    (offset size : Nat) (ho : A.getFileOffset id = .ok offset)
    (hs : A.getFileSize id = .ok size) :
    A.getFile id =
      if ((A.mFile.seekg (toInt64 offset)).read (toInt64 size)).1.eofbit = true then
        ({ A with mFile := ((A.mFile.seekg (toInt64 offset)).read (toInt64 size)).1 },
          .error .endOfFile)
      else if ((A.mFile.seekg (toInt64 offset)).read (toInt64 size)).1.failbit = true then
        ({ A with mFile := ((A.mFile.seekg (toInt64 offset)).read (toInt64 size)).1 },
          .error .readFailed)
      else
        ({ A with mFile := ((A.mFile.seekg (toInt64 offset)).read (toInt64 size)).1 },
          .ok ((A.mFile.seekg (toInt64 offset)).read (toInt64 size)).2) := by
  unfold BsaFile.getFile
  rw [if_pos h, ho, hs]
  rfl

/-- On a stream that has failed, or with an offset that `std::streamoff`
reads as negative, `getFile` throws the read error and leaves the stream
failed. -/
theorem getFile_seek_fails (A : BsaFile) (id : FileId) (h : A.assertsHold id = true)
    (offset size : Nat) (ho : A.getFileOffset id = .ok offset)
    (hs : A.getFileSize id = .ok size)
    (hbad : A.mFile.failbit = true ∨ toInt64 offset < 0) :
    (A.getFile id).2 = .error .readFailed ∧ (A.getFile id).1.mFile.failbit = true := by
  obtain ⟨hf, he⟩ := seekg_fails A.mFile (toInt64 offset) hbad
  rw [getFile_of_asserts A id h offset size ho hs, read_of_failed _ _ hf]
  dsimp only
  rw [he]
  simp

theorem getFile_of_read (A : BsaFile) (id : FileId) (h : A.assertsHold id = true)
    (offset size : Nat) (ho : A.getFileOffset id = .ok offset)
    (hs : A.getFileSize id = .ok size) (r : IfStream × List Byte)
    (hr : (A.mFile.seekg (toInt64 offset)).read (toInt64 size) = r) :
    A.getFile id =
      if r.1.eofbit = true then ({ A with mFile := r.1 }, .error .endOfFile)
      else if r.1.failbit = true then ({ A with mFile := r.1 }, .error .readFailed)
      else ({ A with mFile := r.1 }, .ok r.2) := by
  subst hr
  exact getFile_of_asserts A id h offset size ho hs

theorem seek_read_eq (s : IfStream) (offset : Nat) (n : Int) (hf : s.failbit = false)
    (hoff : offset < 9223372036854775808) :
    (s.seekg (toInt64 offset)).read n =
      IfStream.read { data := s.data, pos := offset, eofbit := false, failbit := false,
                      gcount := s.gcount } n := by
  rw [toInt64_natCast_small offset hoff, seekg_ok _ _ hf (Int.ofNat_nonneg _), Int.toNat_ofNat]

theorem toInt64_short (size offset len : Nat) (hsz : size < 18446744073709551616)
    (hshort : 9223372036854775808 ≤ size ∨ (0 < size ∧ len < offset + size)) :
    toInt64 (size : Int) < 0 ∨
      (0 < toInt64 (size : Int) ∧ (len : Int) < offset + toInt64 (size : Int)) := by
  by_cases hb : 9223372036854775808 ≤ size
  · exact Or.inl (toInt64_natCast_big size hb hsz)
  · rw [toInt64_natCast_small size (Nat.lt_of_not_le hb)]
    rcases hshort with h1 | ⟨h2, h3⟩
    · exact absurd h1 hb
    · exact Or.inr ⟨by exact_mod_cast h2, by exact_mod_cast h3⟩

theorem getFile_eof (A : BsaFile) (id : FileId) (r : IfStream × List Byte)
    (hg : A.getFile id =
      if r.1.eofbit = true then ({ A with mFile := r.1 }, .error .endOfFile)
      else if r.1.failbit = true then ({ A with mFile := r.1 }, .error .readFailed)
      else ({ A with mFile := r.1 }, .ok r.2))
    (he : r.1.eofbit = true) (hfl : r.1.failbit = true) :
    (A.getFile id).2 = .error .endOfFile ∧ (A.getFile id).1.mFile.failbit = true := by
  rw [hg, if_pos he]
  exact ⟨rfl, hfl⟩

/-- On a stream that has not failed, with an offset that fits
`std::streamoff`, a size that `std::streamsize` reads as negative or a range
that ends past the end of the file makes `getFile` throw the end-of-file
error and leaves the stream failed. -/
theorem getFile_short (A : BsaFile) (id : FileId) (h : A.assertsHold id = true)
    (offset size : Nat) (ho : A.getFileOffset id = .ok offset)
    (hs : A.getFileSize id = .ok size) (hf : A.mFile.failbit = false)
    (hoff : offset < 9223372036854775808)
    (hshort : 9223372036854775808 ≤ size ∨ (0 < size ∧ A.mFile.data.length < offset + size)) :
    (A.getFile id).2 = .error .endOfFile ∧ (A.getFile id).1.mFile.failbit = true := by
  have hn := toInt64_short size offset A.mFile.data.length (getFileSize_lt A id size hs) hshort
  have he := read_short A.mFile.data offset A.mFile.gcount (toInt64 (size : Int)) hn
  have hfl := read_short_failbit A.mFile.data offset A.mFile.gcount (toInt64 (size : Int)) hn
  exact getFile_eof A id _ (getFile_of_read A id h offset size ho hs _ (seek_read_eq _ _ _ hf hoff)) he hfl

/-- On a stream that has not failed, a range that fits `std::streamoff` and
`std::streamsize` and is empty or ends inside the file is copied, and the
stream stays good. -/
theorem getFile_fits (A : BsaFile) (id : FileId) (h : A.assertsHold id = true)
    (offset size : Nat) (ho : A.getFileOffset id = .ok offset)
    (hs : A.getFileSize id = .ok size) (hf : A.mFile.failbit = false)
    (hoff : offset < 9223372036854775808) (hsize : size < 9223372036854775808)
    (hfit : size = 0 ∨ offset + size ≤ A.mFile.data.length) :
    A.getFile id =
      ({ A with mFile := { data := A.mFile.data, pos := offset + size, eofbit := false,
                           failbit := false, gcount := size } },
        .ok ((A.mFile.data.drop offset).take size)) := by
  rw [getFile_of_asserts A id h offset size ho hs, toInt64_natCast_small offset hoff,
    toInt64_natCast_small size hsize, seekg_ok _ _ hf (Int.ofNat_nonneg _), Int.toNat_ofNat,
    read_fits _ _ _ _ size rfl hfit]
  simp


theorem seekg_eofbit (s : IfStream) (off : Int) : (s.seekg off).eofbit = false := by
  unfold IfStream.seekg
  dsimp only
  split
  · rfl
  · split <;> rfl

theorem read_eof_fail (s : IfStream) (n : Int) (hs : s.eofbit = false)
    (h : (s.read n).1.eofbit = true) : (s.read n).1.failbit = true := by
  unfold IfStream.read at h ⊢
  by_cases hg : s.good = true
  · rw [if_pos hg] at h ⊢
    dsimp only at h ⊢
    by_cases hl : (((s.data.drop s.pos).take n.toNat).length : Int) = n
    · rw [if_pos hl] at h
      dsimp only at h
      rw [hs] at h
      cases h
    · rw [if_neg hl]
  · rw [if_neg hg] at h
    dsimp only at h
    rw [hs] at h
    cases h

/-- A `getFile` that throws the end-of-file error leaves the stream
failed. -/
theorem getFile_eof_failbit (A : BsaFile) (id : FileId)
    (h : (A.getFile id).2 = .error .endOfFile) : (A.getFile id).1.mFile.failbit = true := by
  by_cases ha : A.assertsHold id = true
  · rw [getFile_of_asserts A id ha _ _ (getFileOffset_of_asserts A id ha)
      (getFileSize_of_asserts A id ha)] at h ⊢
    split at h
    · rename_i heof
      rw [if_pos heof]
      exact read_eof_fail _ _ (seekg_eofbit _ _) heof
    · split at h <;> cases h
  · unfold BsaFile.getFile at h
    rw [if_neg ha] at h
    cases h

/-- The failure is sticky: after a `getFile` that threw the end-of-file error,
every following `getFile` with a handle that passes the assertions throws the
read error. -/
theorem getFile_after_eof (A : BsaFile) (id : FileId)
    (h : (A.getFile id).2 = .error .endOfFile) (id2 : FileId)
    (ha : (A.getFile id).1.assertsHold id2 = true) :
    ((A.getFile id).1.getFile id2).2 = .error .readFailed :=
  (getFile_seek_fails _ id2 ha _ _ (getFileOffset_of_asserts _ id2 ha)
    (getFileSize_of_asserts _ id2 ha) (Or.inl (getFile_eof_failbit A id h))).1

/-- On a stream that has not failed, two consecutive `getFile` calls with a
handle whose range lies inside a file shorter than `2^63` bytes both deliver
the bytes of the range. -/
theorem getFile_twice (A : BsaFile) (id : FileId) (h : A.assertsHold id = true)
    (offset size : Nat) (ho : A.getFileOffset id = .ok offset)
    (hs : A.getFileSize id = .ok size) (hf : A.mFile.failbit = false)
    (hlen : A.mFile.data.length < 9223372036854775808)
    (hin : offset + size ≤ A.mFile.data.length) :
    (A.getFile id).2 = .ok ((A.mFile.data.drop offset).take size) ∧
      ((A.getFile id).1.getFile id).2 = .ok ((A.mFile.data.drop offset).take size) := by
  have hoff : offset < 9223372036854775808 := by omega
  have hsize : size < 9223372036854775808 := by omega
  have h1 := getFile_fits A id h offset size ho hs hf hoff hsize (Or.inr hin)
  rw [h1]
  refine ⟨rfl, ?_⟩
  have h2 := getFile_fits
    { A with mFile := { data := A.mFile.data, pos := offset + size, eofbit := false,
                        failbit := false, gcount := size } }
    id h offset size ho hs rfl hoff hsize (Or.inr hin)
  rw [h2]

/-- C15, falsified as stated, on streams with no earlier failure. In the
archive loaded from `imageNegOffset` the handle of the empty name is found,
`getFileOffset + getFileSize` is `2^64 - 68`, far past the 32 bytes of the
file, and `getFile` throws the read error, not the end-of-file error. In the
archive loaded from `imageEmptyPastEnd` the handle of the empty name is
found, `getFileOffset + getFileSize` is 128, past the 28 bytes of the file,
and `getFile` returns without throwing. -/
theorem getFile_past_end_not_eof :
    BsaFile.construct 1 sampleJunk (some imageNegOffset) = .ok archiveNegOffset ∧
    archiveNegOffset.mFile.failbit = false ∧
    (archiveNegOffset.getFileId []).exists = true ∧
    archiveNegOffset.getFileOffset (archiveNegOffset.getFileId []) = .ok 18446744073709551544 ∧
    archiveNegOffset.getFileSize (archiveNegOffset.getFileId []) = .ok 4 ∧
    archiveNegOffset.mFile.data.length = 32 ∧
    (archiveNegOffset.getFile (archiveNegOffset.getFileId [])).2 = .error .readFailed ∧
    BsaFile.construct 1 sampleJunk (some imageEmptyPastEnd) = .ok archiveEmptyPastEnd ∧
    archiveEmptyPastEnd.mFile.failbit = false ∧
    (archiveEmptyPastEnd.getFileId []).exists = true ∧
    archiveEmptyPastEnd.getFileOffset (archiveEmptyPastEnd.getFileId []) = .ok 128 ∧
    archiveEmptyPastEnd.getFileSize (archiveEmptyPastEnd.getFileId []) = .ok 0 ∧
    archiveEmptyPastEnd.mFile.data.length = 28 ∧
    (archiveEmptyPastEnd.getFile (archiveEmptyPastEnd.getFileId [])).2 = .ok [] := by
  refine ⟨by decide, by decide, by decide, by decide, by decide, by decide, by decide,
    by decide, by decide, by decide, by decide, by decide, by decide, by decide⟩

/-- C15, amended. For every loaded archive whose stream has not failed and
every found handle, with `offset` and `size` the results of `getFileOffset`
and `getFileSize`: when `offset >= 2^63` (a negative `std::streamoff`)
`getFile` throws the read error; when `offset < 2^63`, `size > 0` and
`offset + size` exceeds the length of the file, `getFile` throws the
end-of-file error; when `offset < 2^63` and `size = 0`, `getFile` returns
without throwing; and when the range lies within a file shorter than `2^63`
bytes, `getFile` returns without throwing, with the bytes of the range. -/
theorem getFile_outcome (A : BsaFile) (hA : Loaded A) (hgood : A.mFile.failbit = false)
    (name : List Byte) (h : (A.getFileId name).exists = true) :
    ∃ offset size : Nat,
      A.getFileOffset (A.getFileId name) = .ok offset ∧
      A.getFileSize (A.getFileId name) = .ok size ∧
      (9223372036854775808 ≤ offset →
        (A.getFile (A.getFileId name)).2 = .error .readFailed) ∧
      (offset < 9223372036854775808 → 0 < size → A.mFile.data.length < offset + size →
        (A.getFile (A.getFileId name)).2 = .error .endOfFile) ∧
      (offset < 9223372036854775808 → size = 0 →
        (A.getFile (A.getFileId name)).2 = .ok []) ∧
      (A.mFile.data.length < 9223372036854775808 → offset + size ≤ A.mFile.data.length →
        (A.getFile (A.getFileId name)).2 = .ok ((A.mFile.data.drop offset).take size)) := by
  obtain ⟨_, ha⟩ := getFileId_asserts A hA name h
  have ho := getFileOffset_of_asserts A _ ha
  have hs := getFileSize_of_asserts A _ ha
  refine ⟨_, _, ho, hs, ?_, ?_, ?_, ?_⟩
  · intro hbig
    exact (getFile_seek_fails A _ ha _ _ ho hs
      (Or.inr (toInt64_natCast_big _ hbig (getFileOffset_lt A _ _ ho)))).1
  · intro hoff hpos hpast
    refine (getFile_short A _ ha _ _ ho hs hgood hoff ?_).1
    by_cases hb : 9223372036854775808 ≤
        toSizeT (A.mOffsets.getD (A.getFileId name).mId ⟨0, 0⟩).fileSize
    · exact Or.inl hb
    · exact Or.inr ⟨hpos, hpast⟩
  · intro hoff hz
    rw [getFile_fits A _ ha _ _ ho hs hgood hoff (by rw [hz]; decide) (Or.inl hz), hz]
    rfl
  · intro hlen hin
    rw [getFile_fits A _ ha _ _ ho hs hgood (by omega) (by omega) (Or.inr hin)]

theorem getFile_outcome_witness :
    ∃ offset size : Nat,
      sampleArchive.getFileOffset (sampleArchive.getFileId nameLower) = .ok offset ∧
      sampleArchive.getFileSize (sampleArchive.getFileId nameLower) = .ok size ∧
      (9223372036854775808 ≤ offset →
        (sampleArchive.getFile (sampleArchive.getFileId nameLower)).2 = .error .readFailed) ∧
      (offset < 9223372036854775808 → 0 < size →
        sampleArchive.mFile.data.length < offset + size →
        (sampleArchive.getFile (sampleArchive.getFileId nameLower)).2 = .error .endOfFile) ∧
      (offset < 9223372036854775808 → size = 0 →
        (sampleArchive.getFile (sampleArchive.getFileId nameLower)).2 = .ok []) ∧
      (sampleArchive.mFile.data.length < 9223372036854775808 →
        offset + size ≤ sampleArchive.mFile.data.length →
        (sampleArchive.getFile (sampleArchive.getFileId nameLower)).2 =
          .ok ((sampleArchive.mFile.data.drop offset).take size)) :=
  getFile_outcome sampleArchive ⟨1, sampleJunk, sampleImage, sampleArchive, [], by decide, rfl⟩
    (by decide) nameLower (by decide)

/-- C16, the failing run. The archive loaded from `imageTruncatedData` finds
the name `x`, whose 10 bytes at 46 run past the 48 bytes of the file, and
`getFile` throws the end-of-file error. In the archive this call leaves
behind, the handle of the empty name is found and its range, 2 bytes at 44,
lies inside the file, yet `getFile` throws the read error; on the archive as
loaded the same call delivers the bytes 7, 8. -/
theorem getFile_fails_after_eof :
    BsaFile.construct 1 sampleJunk (some imageTruncatedData) = .ok archiveTruncatedData ∧
    (archiveTruncatedData.getFileId nameX).exists = true ∧
    (archiveTruncatedData.getFile (archiveTruncatedData.getFileId nameX)).2
      = .error .endOfFile ∧
    (archiveTruncatedData.getFile (archiveTruncatedData.getFileId nameX)).1
      = archiveAfterFailure ∧
    (archiveAfterFailure.getFileId []).exists = true ∧
    archiveAfterFailure.getFileOffset (archiveAfterFailure.getFileId []) = .ok 44 ∧
    archiveAfterFailure.getFileSize (archiveAfterFailure.getFileId []) = .ok 2 ∧
    archiveAfterFailure.mFile.data.length = 48 ∧
    (archiveAfterFailure.getFile (archiveAfterFailure.getFileId [])).2 = .error .readFailed ∧
    (archiveTruncatedData.getFile (archiveTruncatedData.getFileId [])).2 = .ok [7, 8] := by
  refine ⟨by decide, by decide, by decide, rfl, by decide, by decide, by decide, by decide,
    by decide, by decide⟩

/-- C17, the failing run (the defect of C16). The archive `archiveAfterFailure`
is a state of a loaded archive: the one loaded from `imageTruncatedData` after
the extraction of `x` threw the end-of-file error. The handle of the empty
name is found in it and its range, 2 bytes at 44, lies inside the 48 bytes of
the file, and two consecutive `getFile` calls with it both throw the read
error. -/
theorem getFile_twice_fails :
    Loaded archiveAfterFailure ∧
    (archiveAfterFailure.getFileId []).exists = true ∧
    archiveAfterFailure.getFileOffset (archiveAfterFailure.getFileId []) = .ok 44 ∧
    archiveAfterFailure.getFileSize (archiveAfterFailure.getFileId []) = .ok 2 ∧
    archiveAfterFailure.mFile.data.length = 48 ∧
    (archiveAfterFailure.getFile (archiveAfterFailure.getFileId [])).2 = .error .readFailed ∧
    ((archiveAfterFailure.getFile (archiveAfterFailure.getFileId [])).1.getFile
      (archiveAfterFailure.getFileId [])).2 = .error .readFailed := by
  refine ⟨⟨1, sampleJunk, imageTruncatedData, archiveTruncatedData,
    [archiveTruncatedData.getFileId nameX], by decide, rfl⟩,
    by decide, by decide, by decide, by decide, by decide, by decide⟩

/-! ## Loading on a free store (C10) -/

theorem stages_aux (v a o s h : Prop) [Decidable v] [Decidable a] [Decidable o] [Decidable s]
    [Decidable h] (b0 b1 : Bool) (A : BsaFile) (C : Except BsaError BsaFile)
    (hC : (if v then .error .badMagic else if a then .error .assertFailed
      else if o then .error .offsetsRead else if s then .error .seekFailed
      else if h then .error .hashesRead else .ok A) = C) :
    (if v then .error .badMagic else if a then .error .assertFailed
      else if b0 = true then .error .badAlloc
      else if o then .error .offsetsRead else if s then .error .seekFailed
      else if b1 = true then .error .badAlloc
      else if h then .error .hashesRead else (.ok A : Except BsaError BsaFile)) =
    if C = .error .badMagic ∨ C = .error .assertFailed then C
    else if b0 = true then .error .badAlloc
    else if C = .error .offsetsRead ∨ C = .error .seekFailed then C
    else if b1 = true then .error .badAlloc
    else C := by
  subst hC
  by_cases hv : v <;> by_cases ha : a <;> by_cases hb0 : b0 = true <;> by_cases ho : o <;>
    by_cases hs : s <;> by_cases hb1 : b1 = true <;> by_cases hh : h <;>
    simp [hv, ha, hb0, ho, hs, hb1, hh]

/-- The constructor on a free store, stage by stage: it ends as in the runs
in which memory is granted, unless a `resize` that it reaches is refused. -/
theorem constructWith_stages (mem : FreeStore) (this : Nat) (junk : Nat → Byte)
    (data : List Byte) :
    BsaFile.constructWith mem this junk (some data) =
      if BsaFile.construct this junk (some data) = .error .badMagic ∨
          BsaFile.construct this junk (some data) = .error .assertFailed then
        BsaFile.construct this junk (some data)
      else if resizeThrows mem 0 (toSizeT (headerOf junk data).numberOfFiles) = true then
        .error .badAlloc
      else if BsaFile.construct this junk (some data) = .error .offsetsRead ∨
          BsaFile.construct this junk (some data) = .error .seekFailed then
        BsaFile.construct this junk (some data)
      else if resizeThrows mem 1 (toSizeT (headerOf junk data).numberOfFiles) = true then
        .error .badAlloc
      else BsaFile.construct this junk (some data) := by
  generalize hC : BsaFile.construct this junk (some data) = C
  unfold BsaFile.construct at hC
  simp only [open_read] at hC
  rw [show decodeHeader (headerBytes junk (List.take 12 data)) = headerOf junk data by
    simp only [headerOf]] at hC
  unfold BsaFile.constructWith
  simp only [open_read]
  rw [show decodeHeader (headerBytes junk (List.take 12 data)) = headerOf junk data by
    simp only [headerOf]]
  exact stages_aux _ _ _ _ _ _ _ _ _ hC

theorem resizeThrows_of_pos (mem : FreeStore) (k n : Nat) (h : 0 < n) :
    resizeThrows mem k n = !mem.grants k (8 * n) := by
  simp [resizeThrows, h]

/-- Whatever the free store, the constructor ends as in the runs in which
memory is granted, or with `std::bad_alloc`. -/
theorem constructWith_eq_or (mem : FreeStore) (this : Nat) (junk : Nat → Byte)
    (data : List Byte) :
    BsaFile.constructWith mem this junk (some data) = BsaFile.construct this junk (some data) ∨
      BsaFile.constructWith mem this junk (some data) = .error .badAlloc := by
  rw [constructWith_stages]
  split_ifs
  · exact Or.inl rfl
  · exact Or.inr rfl
  · exact Or.inl rfl
  · exact Or.inr rfl
  · exact Or.inl rfl

/-- An archive that the constructor produces on some free store is one that
it produces in the runs in which memory is granted. -/
theorem constructWith_ok (mem : FreeStore) (this : Nat) (junk : Nat → Byte)
    (data : List Byte) (A : BsaFile)
    (h : BsaFile.constructWith mem this junk (some data) = .ok A) :
    BsaFile.construct this junk (some data) = .ok A := by
  rcases constructWith_eq_or mem this junk data with h1 | h1
  · rw [← h1]; exact h
  · rw [h1] at h; cases h

/-- On a free store that grants both requests the constructor is
`BsaFile.construct`. -/
theorem constructWith_granted (mem : FreeStore) (this : Nat) (junk : Nat → Byte)
    (data : List Byte)
    (h0 : resizeThrows mem 0 (toSizeT (headerOf junk data).numberOfFiles) = false)
    (h1 : resizeThrows mem 1 (toSizeT (headerOf junk data).numberOfFiles) = false) :
    BsaFile.constructWith mem this junk (some data) = BsaFile.construct this junk (some data) := by
  rw [constructWith_stages, h0, h1]
  simp

/-- The errors thrown before the first `resize` do not depend on the free
store. -/
theorem constructWith_of_early (mem : FreeStore) (this : Nat) (junk : Nat → Byte)
    (data : List Byte)
    (h : BsaFile.construct this junk (some data) = .error .badMagic ∨
      BsaFile.construct this junk (some data) = .error .assertFailed) :
    BsaFile.constructWith mem this junk (some data) = BsaFile.construct this junk (some data) := by
  rw [constructWith_stages, if_pos h]

theorem toSizeT_pos (x : Int) (h1 : 1 ≤ x) (h2 : x < 2147483648) : 0 < toSizeT x := by
  have := toSizeT_of_nonneg (x := x) (by omega) (by omega)
  omega

/-- The outcome on a free store when, memory granted, the offset-table error
or the seek error would be thrown: the first `resize` decides. -/
theorem constructWith_first (mem : FreeStore) (this : Nat) (junk : Nat → Byte)
    (data : List Byte) (hn : 1 ≤ (headerOf junk data).numberOfFiles)
    (hC : BsaFile.construct this junk (some data) = .error .offsetsRead ∨
      BsaFile.construct this junk (some data) = .error .seekFailed) :
    (mem.grants 0 (8 * toSizeT (headerOf junk data).numberOfFiles) = true →
      BsaFile.constructWith mem this junk (some data) =
        BsaFile.construct this junk (some data)) ∧
    (mem.grants 0 (8 * toSizeT (headerOf junk data).numberOfFiles) = false →
      BsaFile.constructWith mem this junk (some data) = .error .badAlloc) := by
  have hp := toSizeT_pos _ hn (headerOf_range junk data).2
  rw [constructWith_stages, resizeThrows_of_pos mem 0 _ hp]
  rcases hC with hC | hC <;> rw [hC] <;> constructor <;> intro hg <;> rw [hg] <;> simp

/-- The outcome on a free store when, memory granted, the hash-table error
would be thrown: the first `resize` decides, then the second. -/
theorem constructWith_second (mem : FreeStore) (this : Nat) (junk : Nat → Byte)
    (data : List Byte) (hn : 1 ≤ (headerOf junk data).numberOfFiles)
    (hC : BsaFile.construct this junk (some data) = .error .hashesRead) :
    (mem.grants 0 (8 * toSizeT (headerOf junk data).numberOfFiles) = false →
      BsaFile.constructWith mem this junk (some data) = .error .badAlloc) ∧
    (mem.grants 0 (8 * toSizeT (headerOf junk data).numberOfFiles) = true →
      mem.grants 1 (8 * toSizeT (headerOf junk data).numberOfFiles) = true →
      BsaFile.constructWith mem this junk (some data) = .error .hashesRead) ∧
    (mem.grants 0 (8 * toSizeT (headerOf junk data).numberOfFiles) = true →
      mem.grants 1 (8 * toSizeT (headerOf junk data).numberOfFiles) = false →
      BsaFile.constructWith mem this junk (some data) = .error .badAlloc) := by
  have hp := toSizeT_pos _ hn (headerOf_range junk data).2
  rw [constructWith_stages, resizeThrows_of_pos mem 0 _ hp, resizeThrows_of_pos mem 1 _ hp, hC]
  refine ⟨fun h0 => ?_, fun h0 h1 => ?_, fun h0 h1 => ?_⟩
  · rw [h0]; simp
  · rw [h0, h1]; simp
  · rw [h0, h1]; simp

/-- C10, falsified as stated. The file `imageNegHashOffset` has a valid magic
number, `numberOfFiles = 1`, a complete offset record after the header and
`hashTableOffset + 12 = -88`, a position from which no byte is available; on
a free store that grants every request the constructor throws the seek
error, not the hash-table error. The file `imageHugeCount` has a valid magic
number and `numberOfFiles = 2^31 - 1`, and 8 bytes follow its header; on a
free store that refuses the `8 * (2^31 - 1)` bytes of `mOffsets.resize` the
constructor throws `std::bad_alloc`, not the offset-table error. -/
theorem constructWith_not_table_error :
    (headerOf sampleJunk imageNegHashOffset).version = 256 ∧
    (headerOf sampleJunk imageNegHashOffset).numberOfFiles = 1 ∧
    (headerOf sampleJunk imageNegHashOffset).hashTableOffset + 12 = -88 ∧
    ¬ ((imageNegHashOffset.length : Int) <
      12 + 8 * (headerOf sampleJunk imageNegHashOffset).numberOfFiles) ∧
    (bytesAvailableFrom imageNegHashOffset
      ((headerOf sampleJunk imageNegHashOffset).hashTableOffset + 12) : Int) <
      8 * (headerOf sampleJunk imageNegHashOffset).numberOfFiles ∧
    BsaFile.constructWith storePlentiful 1 sampleJunk (some imageNegHashOffset)
      = .error .seekFailed ∧
    BsaFile.constructWith storePlentiful 1 sampleJunk (some imageNegHashOffset)
      ≠ .error .hashesRead ∧
    (headerOf sampleJunk imageHugeCount).version = 256 ∧
    (headerOf sampleJunk imageHugeCount).numberOfFiles = 2147483647 ∧
    (imageHugeCount.length : Int) <
      12 + 8 * (headerOf sampleJunk imageHugeCount).numberOfFiles ∧
    storeOneGiB.grants 0 (8 * toSizeT (headerOf sampleJunk imageHugeCount).numberOfFiles)
      = false ∧
    BsaFile.constructWith storeOneGiB 1 sampleJunk (some imageHugeCount) = .error .badAlloc ∧
    BsaFile.constructWith storeOneGiB 1 sampleJunk (some imageHugeCount)
      ≠ .error .offsetsRead := by
  refine ⟨by decide, by decide, by decide, by decide, by decide, by decide, by decide,
    by decide, by decide, by decide, by decide, by decide, by decide⟩

/-- C10, amended. For every free store and every file whose header, as the
constructor reads it, has a valid magic number and `numberOfFiles = n ≥ 1`,
with `mOffsets.resize` the request 0 and `mHashes.resize` the request 1, each
for `8n` bytes. If fewer than `8n` bytes follow the 12-byte header, the
constructor throws the offset-table error when request 0 is granted and
`std::bad_alloc` when it is refused. Otherwise, if `n < 2^28`, the position
`hashTableOffset + 12` lies in `[0, 2^31)` and fewer than `8n` bytes are
available from it, the constructor throws the hash-table error when both
requests are granted and `std::bad_alloc` when one of them is refused. If
instead `n < 2^28` and that position is negative and not `-1`, it throws the
seek error when request 0 is granted and `std::bad_alloc` when it is
refused. Whenever either table is truncated no archive is produced. -/
theorem constructWith_truncated_table (mem : FreeStore) (this : Nat) (junk : Nat → Byte)
    (data : List Byte)
    (hv : (headerOf junk data).version = 256) (hn : 1 ≤ (headerOf junk data).numberOfFiles) :
    ((data.length : Int) < 12 + 8 * (headerOf junk data).numberOfFiles →
      (mem.grants 0 (8 * toSizeT (headerOf junk data).numberOfFiles) = true →
        BsaFile.constructWith mem this junk (some data) = .error .offsetsRead) ∧
      (mem.grants 0 (8 * toSizeT (headerOf junk data).numberOfFiles) = false →
        BsaFile.constructWith mem this junk (some data) = .error .badAlloc)) ∧
    (¬ ((data.length : Int) < 12 + 8 * (headerOf junk data).numberOfFiles) →
      (headerOf junk data).numberOfFiles < 268435456 →
      0 ≤ (headerOf junk data).hashTableOffset + 12 →
      (headerOf junk data).hashTableOffset + 12 < 2147483648 →
      (bytesAvailableFrom data ((headerOf junk data).hashTableOffset + 12) : Int) <
        8 * (headerOf junk data).numberOfFiles →
      (mem.grants 0 (8 * toSizeT (headerOf junk data).numberOfFiles) = false →
        BsaFile.constructWith mem this junk (some data) = .error .badAlloc) ∧
      (mem.grants 0 (8 * toSizeT (headerOf junk data).numberOfFiles) = true →
        mem.grants 1 (8 * toSizeT (headerOf junk data).numberOfFiles) = true →
        BsaFile.constructWith mem this junk (some data) = .error .hashesRead) ∧
      (mem.grants 0 (8 * toSizeT (headerOf junk data).numberOfFiles) = true →
        mem.grants 1 (8 * toSizeT (headerOf junk data).numberOfFiles) = false →
        BsaFile.constructWith mem this junk (some data) = .error .badAlloc)) ∧
    (¬ ((data.length : Int) < 12 + 8 * (headerOf junk data).numberOfFiles) →
      (headerOf junk data).numberOfFiles < 268435456 →
      (headerOf junk data).hashTableOffset + 12 < 0 →
      (headerOf junk data).hashTableOffset + 12 ≠ -1 →
      (mem.grants 0 (8 * toSizeT (headerOf junk data).numberOfFiles) = true →
        BsaFile.constructWith mem this junk (some data) = .error .seekFailed) ∧
      (mem.grants 0 (8 * toSizeT (headerOf junk data).numberOfFiles) = false →
        BsaFile.constructWith mem this junk (some data) = .error .badAlloc)) ∧
    (((data.length : Int) < 12 + 8 * (headerOf junk data).numberOfFiles ∨
      (bytesAvailableFrom data ((headerOf junk data).hashTableOffset + 12) : Int) <
        8 * (headerOf junk data).numberOfFiles) →
      ∃ e : BsaError, BsaFile.constructWith mem this junk (some data) = .error e) := by
  obtain ⟨g1, g2, g3, g4⟩ := construct_truncated_granted this junk data hv hn
  refine ⟨fun h => ?_, fun h1 h2 h3 h4 h5 => ?_, fun h1 h2 h3 h4 => ?_, fun h => ?_⟩
  · have hC := g1 h
    obtain ⟨a, b⟩ := constructWith_first mem this junk data hn (Or.inl hC)
    exact ⟨fun hg => by rw [a hg, hC], b⟩
  · exact constructWith_second mem this junk data hn (g2 h1 h2 h3 h4 h5)
  · have hC := g3 h1 h2 h3 h4
    obtain ⟨a, b⟩ := constructWith_first mem this junk data hn (Or.inr hC)
    exact ⟨fun hg => by rw [a hg, hC], b⟩
  · obtain ⟨e, he⟩ := g4 h
    rcases constructWith_eq_or mem this junk data with h1 | h1
    · exact ⟨e, by rw [h1, he]⟩
    · exact ⟨_, h1⟩

theorem constructWith_truncated_table_witness :
    BsaFile.constructWith storePlentiful 1 sampleJunk (some imageShortOffsets)
      = .error .offsetsRead ∧
    BsaFile.constructWith storeOneGiB 1 sampleJunk (some imageHugeCount) = .error .badAlloc ∧
    BsaFile.constructWith storePlentiful 1 sampleJunk (some imageShortHashes)
      = .error .hashesRead ∧
    BsaFile.constructWith storeFirstOnly 1 sampleJunk (some imageShortHashes)
      = .error .badAlloc ∧
    BsaFile.constructWith storePlentiful 1 sampleJunk (some imageNegHashOffset)
      = .error .seekFailed ∧
    ∃ e : BsaError,
      BsaFile.constructWith storeFirstOnly 1 sampleJunk (some imageShortHashes) = .error e :=
  ⟨((constructWith_truncated_table storePlentiful 1 sampleJunk imageShortOffsets (by decide)
      (by decide)).1 (by decide)).1 (by decide),
   ((constructWith_truncated_table storeOneGiB 1 sampleJunk imageHugeCount (by decide)
      (by decide)).1 (by decide)).2 (by decide),
   ((constructWith_truncated_table storePlentiful 1 sampleJunk imageShortHashes (by decide)
      (by decide)).2.1 (by decide) (by decide) (by decide) (by decide) (by decide)).2.1
      (by decide) (by decide),
   ((constructWith_truncated_table storeFirstOnly 1 sampleJunk imageShortHashes (by decide)
      (by decide)).2.1 (by decide) (by decide) (by decide) (by decide) (by decide)).2.2
      (by decide) (by decide),
   ((constructWith_truncated_table storePlentiful 1 sampleJunk imageNegHashOffset (by decide)
      (by decide)).2.2.1 (by decide) (by decide) (by decide) (by decide)).1 (by decide),
   (constructWith_truncated_table storeFirstOnly 1 sampleJunk imageShortHashes (by decide)
      (by decide)).2.2.2 (Or.inr (by decide))⟩

end Bsa
